import Mathlib

/-
Verification development for the specter-bootloader core.

The definitions below are a shallow embedding of the C sources:
  src/core/bl_integrity_check.c, src/core/bootloader.c, src/core/bl_section.c,
  src/core/bl_signature.c, src/platforms/stm32f469disco/startup/startup.c.
Machine integers are modelled as Nat with explicit reduction modulo 2^32 where
the C code computes in uint32_t.  Flash memory is a byte-addressed state
`Nat → Nat`; the platform flash syscalls (memcpy-style read/write, erase,
CRC over flash) are modelled after their in-tree implementations
(src/platforms/stm32f469disco/startup/startup.c and
src/platforms/testbench/bootloader/bl_syscalls.c).
-/

set_option maxRecDepth 8000

namespace Specter

/-- Reduction modulo 2^32, the semantics of `uint32_t` arithmetic. -/
def u32 (n : Nat) : Nat := n % 4294967296

theorem u32_lt (n : Nat) : u32 n < 4294967296 := Nat.mod_lt _ (by norm_num)

/-- Little-endian serialization of a 32-bit word into four bytes, the layout
of a `uint32_t` field of the packed on-flash structures. -/
def le32 (n : Nat) : List Nat :=
  [n % 256, n / 256 % 256, n / 65536 % 256, n / 16777216 % 256]

theorem le32_length (n : Nat) : (le32 n).length = 4 := rfl

/-- Reading a 32-bit little-endian word from the first four bytes of a byte
list, the semantics of reading a `uint32_t` field of a packed struct. -/
def readLe32 : List Nat → Nat
  | b0 :: b1 :: b2 :: b3 :: _ => b0 + 256 * b1 + 65536 * b2 + 16777216 * b3
  | _ => 0

theorem readLe32_le32 (n : Nat) (rest : List Nat) (h : n < 4294967296) :
    readLe32 (le32 n ++ rest) = n := by
  simp only [le32, List.cons_append, List.nil_append, readLe32]
  omega

/-- Modelled from the spec: the CRC-32 primitive `crc32_fast` (lib/crc32,
declared in src/lib/crc32/crc32.h but implemented outside src/): the
reflected Ethernet polynomial 0xEDB88320 with the usual pre/post inversion,
so that `crc32_fast(data, len, 0)` is the standard CRC-32.  One step
processes one bit of the shift register. -/
def crc32_step (c : Nat) : Nat :=
  if c % 2 = 1 then u32 ((c / 2) ^^^ 0xEDB88320) else c / 2

/-- Modelled from the spec: CRC-32 update with one input byte (eight shift
steps after the byte is xor-ed into the register). -/
def crc32_byte (c b : Nat) : Nat :=
  crc32_step (crc32_step (crc32_step (crc32_step
    (crc32_step (crc32_step (crc32_step (crc32_step (u32 (c ^^^ b)))))))))

/-- Modelled from the spec: `crc32_fast(data, length, previousCrc32)`. -/
def crc32_fast (data : List Nat) (previousCrc32 : Nat) : Nat :=
  u32 ((data.foldl crc32_byte (u32 (previousCrc32 ^^^ 0xFFFFFFFF))) ^^^ 0xFFFFFFFF)

theorem crc32_fast_lt (data : List Nat) (prev : Nat) :
    crc32_fast data prev < 4294967296 := u32_lt _

/-- Byte-addressed flash memory state on which the `blsys_flash_*` platform
calls operate. -/
def Flash : Type := Nat → Nat

/-- Flash state whose every byte reads as zero (an erased device, matching the
testbench flash emulation which erases to 0). -/
def zeroFlash : Flash := fun _ => 0

/-- Semantics of `blsys_flash_read`: reads `len` consecutive bytes starting at
`addr` (a memcpy from memory-mapped flash in the in-tree implementations). -/
def flashReadBytes (m : Flash) (addr : Nat) : Nat → List Nat
  | 0 => []
  | len + 1 => m addr :: flashReadBytes m (addr + 1) len

/-- Semantics of `blsys_flash_write`: writes the byte list `bs` starting at
`addr` (a memcpy into the flash emulation buffer in the testbench). -/
def flashWriteBytes (m : Flash) (addr : Nat) : List Nat → Flash
  | [] => m
  | b :: rest => flashWriteBytes (fun x => if x = addr then b else m x) (addr + 1) rest

theorem flashWriteBytes_outside :
    ∀ (bs : List Nat) (m : Flash) (addr x : Nat),
      (x < addr ∨ addr + bs.length ≤ x) → flashWriteBytes m addr bs x = m x := by
  intro bs
  induction bs with
  | nil => intro m addr x _; rfl
  | cons b rest ih =>
    intro m addr x hx
    simp only [flashWriteBytes]
    rw [ih _ (addr + 1) x (by simp only [List.length_cons] at hx; omega)]
    have hne : x ≠ addr := by simp only [List.length_cons] at hx; omega
    simp [hne]

theorem flashReadBytes_write :
    ∀ (bs : List Nat) (m : Flash) (addr : Nat),
      flashReadBytes (flashWriteBytes m addr bs) addr bs.length = bs := by
  intro bs
  induction bs with
  | nil => intro m addr; rfl
  | cons b rest ih =>
    intro m addr
    simp only [List.length_cons, flashReadBytes, flashWriteBytes, List.cons.injEq]
    constructor
    · rw [flashWriteBytes_outside rest _ (addr + 1) addr (by omega)]
      simp
    · exact ih _ (addr + 1)

theorem flashReadBytes_congr :
    ∀ (len : Nat) (m1 m2 : Flash) (addr : Nat),
      (∀ x, addr ≤ x → x < addr + len → m1 x = m2 x) →
      flashReadBytes m1 addr len = flashReadBytes m2 addr len := by
  intro len
  induction len with
  | zero => intro _ _ _ _; rfl
  | succ n ih =>
    intro m1 m2 addr h
    simp only [flashReadBytes, List.cons.injEq]
    constructor
    · exact h addr (Nat.le_refl _) (by omega)
    · exact ih m1 m2 (addr + 1) (fun x hx1 hx2 => h x (by omega) (by omega))

theorem flashReadBytes_length (m : Flash) (addr : Nat) :
    ∀ len, (flashReadBytes m addr len).length = len := by
  intro len
  induction len generalizing addr with
  | zero => rfl
  | succ n ih => simp [flashReadBytes, ih]

/-- Semantics of `blsys_flash_crc32` as implemented in
src/platforms/stm32f469disco/startup/startup.c: fails when `len` is zero,
otherwise updates the CRC register over the flash bytes. -/
def blsys_flash_crc32 (m : Flash) (addr len prev : Nat) : Option Nat :=
  if len = 0 then none else some (crc32_fast (flashReadBytes m addr len) prev)

/- ===================== Integrity check records (ICR) =====================
   Embedding of src/core/bl_integrity_check.c and its private types from
   src/core/bl_integrity_check.h. -/

def BL_ICR_SIZE : Nat := 32
def BL_VCR_SIZE : Nat := 32
/-- Total overhead from all metadata stored together with firmware
(`BL_FW_SECT_OVERHEAD` = ICR size + VCR size). -/
def BL_FW_SECT_OVERHEAD : Nat := BL_ICR_SIZE + BL_VCR_SIZE
/-- Offset of the ICR record from the end of a firmware section, as defined in
src/core/bl_integrity_check.h lines 29-30: `BL_ICR_SIZE + BL_VCR_SIZE`. -/
def BL_ICR_OFFSET_FROM_END : Nat := BL_ICR_SIZE + BL_VCR_SIZE
/-- Magic word of the ICR: the bytes "INTG" read as a little-endian word. -/
def BL_ICR_MAGIC : Nat := 0x47544E49
def BL_ICR_STRUCT_REV : Nat := 1
def BL_VERSION_MAX : Nat := 4199999999
def BL_VERSION_NA : Nat := 0
/-- UINTPTR_MAX of the 32-bit target (`bl_addr_t` is `uintptr_t`). -/
def BL_ADDR_MAX : Nat := 4294967295
def UINT32_MAX : Nat := 4294967295

/-- Address at which both `bl_icr_create` and `icr_get` locate the integrity
check record: `sect_addr + sect_size - BL_ICR_OFFSET_FROM_END` (both functions
of src/core/bl_integrity_check.c compute this same `icr_addr`). -/
def bl_icr_addr (sect_addr sect_size : Nat) : Nat :=
  sect_addr + sect_size - BL_ICR_OFFSET_FROM_END

/-- Embedding of `bl_icr_check_sect_size`. -/
def bl_icr_check_sect_size (sect_size pl_size : Nat) : Bool :=
  (sect_size != 0) && (pl_size != 0) &&
  decide (sect_size ≤ BL_ADDR_MAX - sect_size) &&
  decide (pl_size ≤ UINT32_MAX - BL_FW_SECT_OVERHEAD) &&
  decide (pl_size + BL_FW_SECT_OVERHEAD ≤ sect_size)

/-- First 28 bytes of `bl_integrity_check_rec_t` in its packed little-endian
layout (magic, struct_rev, pl_ver, main_sect.{pl_size, pl_crc}, aux_sect
zeroed), the part covered by the struct CRC (`ICR_CRC_CHECKED_SIZE`). -/
def icrBody (pl_ver pl_size crc : Nat) : List Nat :=
  le32 BL_ICR_MAGIC ++ le32 BL_ICR_STRUCT_REV ++ le32 pl_ver ++
  le32 pl_size ++ le32 crc ++ le32 0 ++ le32 0

/-- Embedding of `icr_struct_create_main` proper: guards, payload CRC via
`blsys_flash_crc32`, record assembly with the struct CRC appended. -/
def icr_struct_create_main (m : Flash) (main_addr main_size pl_size pl_ver : Nat) :
    Option (List Nat) :=
  if main_size ≠ 0 ∧ pl_size ≠ 0 then
    match blsys_flash_crc32 m main_addr pl_size 0 with
    | none => none
    | some crc =>
      some (icrBody pl_ver pl_size crc ++ le32 (crc32_fast (icrBody pl_ver pl_size crc) 0))
  else none

/-- Embedding of `bl_icr_create`: checks the section size, builds the record
and writes its 32 bytes at `icr_addr = sect_addr + sect_size -
BL_ICR_OFFSET_FROM_END`. -/
def bl_icr_create (m : Flash) (sect_addr sect_size pl_size pl_ver : Nat) : Option Flash :=
  if bl_icr_check_sect_size sect_size pl_size then
    match icr_struct_create_main m sect_addr sect_size pl_size pl_ver with
    | some bytes => some (flashWriteBytes m (bl_icr_addr sect_addr sect_size) bytes)
    | none => none
  else none

/-- Embedding of `icr_validate`, operating on the 32 raw record bytes read
from flash (the C code validates the packed struct in place): magic, struct
revision, struct CRC over the first 28 bytes, version range. -/
def icr_validate (bs : List Nat) : Bool :=
  (readLe32 bs == BL_ICR_MAGIC) && (readLe32 (bs.drop 4) == BL_ICR_STRUCT_REV) &&
  (crc32_fast (bs.take 28) 0 == readLe32 (bs.drop 28)) &&
  decide (readLe32 (bs.drop 8) ≤ BL_VERSION_MAX)

/-- Embedding of `icr_get`: reads the 32 record bytes from the end of the
section and validates them. -/
def icr_get (m : Flash) (sect_addr sect_size : Nat) : Option (List Nat) :=
  if sect_size ≠ 0 ∧ sect_size > BL_FW_SECT_OVERHEAD then
    let bs := flashReadBytes m (bl_icr_addr sect_addr sect_size) 32
    if icr_validate bs then some bs else none
  else none

/-- Embedding of `icr_verify_main`: requires the auxiliary section of the
record to be zeroed and the payload CRC over `main_sect.pl_size` flash bytes
to match `main_sect.pl_crc` (via `blsys_flash_crc32`, which fails on a zero
length). -/
def icr_verify_main (m : Flash) (bs : List Nat) (main_addr : Nat) : Bool :=
  (readLe32 (bs.drop 20) == 0) && (readLe32 (bs.drop 24) == 0) &&
  (match blsys_flash_crc32 m main_addr (readLe32 (bs.drop 12)) 0 with
   | some crc => crc == readLe32 (bs.drop 16)
   | none => false)

/-- Embedding of `bl_icr_verify`; `some v` models returning true with
`*p_pl_ver = v`. -/
def bl_icr_verify (m : Flash) (sect_addr sect_size : Nat) : Option Nat :=
  if sect_size ≠ 0 then
    match icr_get m sect_addr sect_size with
    | some bs => if icr_verify_main m bs sect_addr then some (readLe32 (bs.drop 8)) else none
    | none => none
  else none

/-- Embedding of `bl_icr_get_version`: reads the record and returns its
version without the payload CRC check. -/
def bl_icr_get_version (m : Flash) (sect_addr sect_size : Nat) : Option Nat :=
  if sect_size ≠ 0 then
    (icr_get m sect_addr sect_size).map fun bs => readLe32 (bs.drop 8)
  else none

/- Field-extraction lemmas for the serialized integrity check record. -/

theorem icrRecord_length (v pl crc c : Nat) :
    (icrBody v pl crc ++ le32 c).length = 32 := by
  simp [icrBody, le32]

theorem icrRecord_take_28 (v pl crc c : Nat) :
    (icrBody v pl crc ++ le32 c).take 28 = icrBody v pl crc := by
  simp only [icrBody, le32, List.cons_append, List.nil_append, List.take, List.append_nil]

theorem icrRecord_drop_28 (v pl crc c : Nat) :
    (icrBody v pl crc ++ le32 c).drop 28 = le32 c := rfl

theorem icrRecord_read_magic (v pl crc : Nat) (tail : List Nat) :
    readLe32 (icrBody v pl crc ++ tail) = BL_ICR_MAGIC := rfl

theorem icrRecord_read_rev (v pl crc : Nat) (tail : List Nat) :
    readLe32 ((icrBody v pl crc ++ tail).drop 4) = BL_ICR_STRUCT_REV := rfl

theorem icrRecord_read_ver (v pl crc : Nat) (tail : List Nat) (hv : v < 4294967296) :
    readLe32 ((icrBody v pl crc ++ tail).drop 8) = v := by
  have h : readLe32 ((icrBody v pl crc ++ tail).drop 8) =
      v % 256 + 256 * (v / 256 % 256) + 65536 * (v / 65536 % 256) +
        16777216 * (v / 16777216 % 256) := rfl
  rw [h]; omega

theorem icrRecord_read_plsize (v pl crc : Nat) (tail : List Nat) (hpl : pl < 4294967296) :
    readLe32 ((icrBody v pl crc ++ tail).drop 12) = pl := by
  have h : readLe32 ((icrBody v pl crc ++ tail).drop 12) =
      pl % 256 + 256 * (pl / 256 % 256) + 65536 * (pl / 65536 % 256) +
        16777216 * (pl / 16777216 % 256) := rfl
  rw [h]; omega

theorem icrRecord_read_plcrc (v pl crc : Nat) (tail : List Nat) (hcrc : crc < 4294967296) :
    readLe32 ((icrBody v pl crc ++ tail).drop 16) = crc := by
  have h : readLe32 ((icrBody v pl crc ++ tail).drop 16) =
      crc % 256 + 256 * (crc / 256 % 256) + 65536 * (crc / 65536 % 256) +
        16777216 * (crc / 16777216 % 256) := rfl
  rw [h]; omega

theorem icrRecord_read_aux_size (v pl crc : Nat) (tail : List Nat) :
    readLe32 ((icrBody v pl crc ++ tail).drop 20) = 0 := rfl

theorem icrRecord_read_aux_crc (v pl crc : Nat) (tail : List Nat) :
    readLe32 ((icrBody v pl crc ++ tail).drop 24) = 0 := rfl

theorem readLe32_le32_nil (n : Nat) (h : n < 4294967296) : readLe32 (le32 n) = n := by
  have := readLe32_le32 n [] h
  simpa using this

/-- Decomposition of the `bl_icr_check_sect_size` guard into its conjuncts. -/
theorem bl_icr_check_sect_size_elim {s pl : Nat}
    (h : bl_icr_check_sect_size s pl = true) :
    s ≠ 0 ∧ pl ≠ 0 ∧ s ≤ BL_ADDR_MAX - s ∧ pl ≤ UINT32_MAX - 64 ∧ pl + 64 ≤ s := by
  simp only [bl_icr_check_sect_size, BL_FW_SECT_OVERHEAD, BL_ICR_SIZE, BL_VCR_SIZE,
    Bool.and_eq_true, bne_iff_ne, decide_eq_true_eq] at h
  exact ⟨h.1.1.1.1, h.1.1.1.2, h.1.1.2, h.1.2, h.2⟩

/-- Value of a successful `icr_struct_create_main`. -/
theorem icr_struct_create_main_eq (m : Flash) (a s pl v : Nat)
    (hs : s ≠ 0) (hpl : pl ≠ 0) :
    icr_struct_create_main m a s pl v =
      some (icrBody v pl (crc32_fast (flashReadBytes m a pl) 0) ++
        le32 (crc32_fast (icrBody v pl (crc32_fast (flashReadBytes m a pl) 0)) 0)) := by
  have hcrc : blsys_flash_crc32 m a pl 0 =
      some (crc32_fast (flashReadBytes m a pl) 0) := by
    unfold blsys_flash_crc32
    rw [if_neg hpl]
  unfold icr_struct_create_main
  rw [if_pos ⟨hs, hpl⟩, hcrc]

/-- Unfolding of a successful `bl_icr_create`: the size check passed, the
payload CRC was computed, and the result is the input flash with the 32
record bytes written at `bl_icr_addr`. -/
theorem bl_icr_create_elim {m : Flash} {a s pl v : Nat} {m2 : Flash}
    (h : bl_icr_create m a s pl v = some m2) :
    bl_icr_check_sect_size s pl = true ∧
    m2 = flashWriteBytes m (bl_icr_addr a s)
      (icrBody v pl (crc32_fast (flashReadBytes m a pl) 0) ++
        le32 (crc32_fast (icrBody v pl (crc32_fast (flashReadBytes m a pl) 0)) 0)) := by
  unfold bl_icr_create at h
  split at h
  case isFalse => exact absurd h (by simp)
  case isTrue hck =>
    obtain ⟨hs0, hpl0, _, _, _⟩ := bl_icr_check_sect_size_elim hck
    rw [icr_struct_create_main_eq m a s pl v hs0 hpl0] at h
    exact ⟨hck, (Option.some_inj.mp h).symm⟩

/-- Validation succeeds on a freshly serialized record whose version is in
range. -/
theorem icrRecord_validate (v pl crc : Nat) (hv : v ≤ BL_VERSION_MAX) :
    icr_validate (icrBody v pl crc ++ le32 (crc32_fast (icrBody v pl crc) 0)) = true := by
  have hvlt : v < 4294967296 := by
    simp only [BL_VERSION_MAX] at hv; omega
  simp only [icr_validate, icrRecord_read_magic, icrRecord_read_rev, icrRecord_take_28,
    icrRecord_drop_28, icrRecord_read_ver v pl crc _ hvlt,
    readLe32_le32_nil _ (crc32_fast_lt _ _), beq_self_eq_true, Bool.and_eq_true,
    decide_eq_true_eq, true_and, and_true]
  exact hv

/-- Main-section verification succeeds on a serialized record when the flash
payload CRC matches the recorded one. -/
theorem icrRecord_verify_main (m2 : Flash) (a v pl crc c : Nat)
    (hpl : pl < 4294967296) (hcrc : crc < 4294967296)
    (hpay : blsys_flash_crc32 m2 a pl 0 = some crc) :
    icr_verify_main m2 (icrBody v pl crc ++ le32 c) a = true := by
  simp only [icr_verify_main, icrRecord_read_aux_size, icrRecord_read_aux_crc,
    icrRecord_read_plsize v pl crc _ hpl, hpay, icrRecord_read_plcrc v pl crc _ hcrc,
    beq_self_eq_true, Bool.and_eq_true, and_self]

/-- C9, amended: the ICR round-trip holds under the stated size precondition
together with the version bound `pl_ver ≤ BL_VERSION_MAX` which
`icr_validate` enforces on the verify side. -/
theorem C9_icr_roundtrip (m : Flash) (a s pl v : Nat)
    (hver : v ≤ BL_VERSION_MAX)
    (hpre : pl + 64 ≤ s) (hpos : 0 < pl)
    (hsucc : (bl_icr_create m a s pl v).isSome = true) :
    (bl_icr_create m a s pl v).map (fun m2 => bl_icr_verify m2 a s) = some (some v) := by
  obtain ⟨m2, hm2⟩ := Option.isSome_iff_exists.mp hsucc
  obtain ⟨hck, hm2eq⟩ := bl_icr_create_elim hm2
  obtain ⟨hs0, hpl0, hsA, hplA, hple⟩ := bl_icr_check_sect_size_elim hck
  have hvlt : v < 4294967296 := by
    simp only [BL_VERSION_MAX] at hver; omega
  have hpllt : pl < 4294967296 := by
    simp only [UINT32_MAX] at hplA; omega
  have hicrA : bl_icr_addr a s = a + s - 64 := rfl
  have hgt64 : s > BL_FW_SECT_OVERHEAD := by
    simp only [BL_FW_SECT_OVERHEAD, BL_ICR_SIZE, BL_VCR_SIZE]; omega
  have hreadR : flashReadBytes m2 (bl_icr_addr a s) 32 =
      icrBody v pl (crc32_fast (flashReadBytes m a pl) 0) ++
        le32 (crc32_fast (icrBody v pl (crc32_fast (flashReadBytes m a pl) 0)) 0) := by
    rw [hm2eq]
    have hlen := icrRecord_length v pl (crc32_fast (flashReadBytes m a pl) 0)
      (crc32_fast (icrBody v pl (crc32_fast (flashReadBytes m a pl) 0)) 0)
    rw [← hlen]
    exact flashReadBytes_write _ m (bl_icr_addr a s)
  have hpayload : flashReadBytes m2 a pl = flashReadBytes m a pl := by
    rw [hm2eq]
    apply flashReadBytes_congr
    intro x hx1 hx2
    apply flashWriteBytes_outside
    left
    rw [hicrA]
    omega
  have hpaycrc : blsys_flash_crc32 m2 a pl 0 =
      some (crc32_fast (flashReadBytes m a pl) 0) := by
    unfold blsys_flash_crc32
    rw [if_neg hpl0, hpayload]
  have hget : icr_get m2 a s =
      some (icrBody v pl (crc32_fast (flashReadBytes m a pl) 0) ++
        le32 (crc32_fast (icrBody v pl (crc32_fast (flashReadBytes m a pl) 0)) 0)) := by
    unfold icr_get
    rw [if_pos ⟨hs0, hgt64⟩]
    simp only [hreadR, icrRecord_validate v pl _ hver, if_true]
  rw [hm2, Option.map_some']
  have hverify : bl_icr_verify m2 a s = some v := by
    unfold bl_icr_verify
    rw [if_pos hs0, hget]
    simp only [icrRecord_verify_main m2 a v pl _ _ hpllt (crc32_fast_lt _ _) hpaycrc,
      if_true, icrRecord_read_ver v pl _ _ hvlt]
  rw [hverify]

/-- C9, counterexample to the claim as stated: with `pl_ver = 4200000000`
(above BL_VERSION_MAX but representable as uint32_t), `bl_icr_create`
succeeds at `sect_addr = 0, sect_size = 80, pl_size = 1` — which satisfies
the stated precondition `sect_size ≥ pl_size + 64`, both positive — the
flash is not modified afterwards, yet `bl_icr_verify` returns false because
`icr_validate` rejects the out-of-range version. -/
theorem C9_counterexample :
    (0 < (1 : Nat) ∧ 0 < (80 : Nat) ∧ 1 + 64 ≤ (80 : Nat)) ∧
    ((bl_icr_create zeroFlash 0 80 1 4200000000).map
      (fun m2 => bl_icr_verify m2 0 80)) = some none := by decide

/-- C9 witness: a concrete round-trip at version 99. -/
theorem C9_icr_roundtrip_witness :
    ((bl_icr_create zeroFlash 0 80 1 99).map (fun m2 => bl_icr_verify m2 0 80)) =
      some (some 99) :=
  C9_icr_roundtrip zeroFlash 0 80 1 99 (by decide) (by decide) (by decide) (by decide)

/-- C3, counterexample to the claim as stated: a successful `bl_icr_create`
at `sect_addr = 0, sect_size = 80` leaves the 32 bytes at flash offset
`sect_size - 32` untouched (still the all-zero erased pattern, which is not
an integrity check record: a record starts with the magic bytes of "INTG"),
while the first record byte 0x49 ('I') sits at offset `sect_size - 64`. -/
theorem C3_counterexample :
    (bl_icr_create zeroFlash 0 80 1 1).isSome = true ∧
    ((bl_icr_create zeroFlash 0 80 1 1).map
      (fun m2 => flashReadBytes m2 (0 + 80 - 32) 32)) = some (List.replicate 32 0) ∧
    ((bl_icr_create zeroFlash 0 80 1 1).map (fun m2 => m2 (0 + 80 - 64))) = some 73 := by
  decide

/-- C3, amended: every successful `bl_icr_create(sect_addr, sect_size, ...)`
writes the 32-byte record at `bl_icr_addr = sect_addr + sect_size - 64`
(`BL_ICR_OFFSET_FROM_END = ICR size + VCR size = 64`), leaving all flash
outside `[sect_addr + sect_size - 64, sect_addr + sect_size - 32)` unchanged;
`icr_get`, used by `bl_icr_verify`, reads the record back from the same
`bl_icr_addr`. -/
theorem C3_icr_offset (m : Flash) (a s pl v : Nat)
    (hsucc : (bl_icr_create m a s pl v).isSome = true) :
    BL_ICR_OFFSET_FROM_END = 64 ∧
    ((bl_icr_create m a s pl v).map
      (fun m2 => flashReadBytes m2 (bl_icr_addr a s) 32)) =
        icr_struct_create_main m a s pl v ∧
    ∀ x, x < a + s - 64 ∨ a + s - 32 ≤ x →
      ((bl_icr_create m a s pl v).map (fun m2 => m2 x)) = some (m x) := by
  obtain ⟨m2, hm2⟩ := Option.isSome_iff_exists.mp hsucc
  obtain ⟨hck, hm2eq⟩ := bl_icr_create_elim hm2
  obtain ⟨hs0, hpl0, hsA, hplA, hple⟩ := bl_icr_check_sect_size_elim hck
  have hIA : bl_icr_addr a s = a + s - 64 := rfl
  have hlen := icrRecord_length v pl (crc32_fast (flashReadBytes m a pl) 0)
    (crc32_fast (icrBody v pl (crc32_fast (flashReadBytes m a pl) 0)) 0)
  refine ⟨rfl, ?_, ?_⟩
  · rw [hm2, Option.map_some', icr_struct_create_main_eq m a s pl v hs0 hpl0]
    refine Option.some_inj.mpr ?_
    rw [hm2eq, ← hlen]
    exact flashReadBytes_write _ m _
  · intro x hx
    rw [hm2, Option.map_some']
    refine Option.some_inj.mpr ?_
    rw [hm2eq]
    apply flashWriteBytes_outside
    rw [hlen, hIA]
    omega

/-- C3 witness for the amended statement, at `sect_addr = 0, sect_size = 80`:
the read-back at `bl_icr_addr` returns the created record and the byte at
offset 48 (= `sect_size - 32`) is untouched. -/
theorem C3_icr_offset_witness :
    (((bl_icr_create zeroFlash 0 80 1 1).map
      (fun m2 => flashReadBytes m2 (bl_icr_addr 0 80) 32)) =
        icr_struct_create_main zeroFlash 0 80 1 1) ∧
    ((bl_icr_create zeroFlash 0 80 1 1).map (fun m2 => m2 48)) = some (zeroFlash 48) :=
  ⟨(C3_icr_offset zeroFlash 0 80 1 1 (by decide)).2.1,
   (C3_icr_offset zeroFlash 0 80 1 1 (by decide)).2.2 48 (by decide)⟩

/- ===================== Start-up selector =====================
   Embedding of `select_bootloader` from
   src/platforms/stm32f469disco/startup/startup.c.  The two copy base
   addresses and the common section size come from the linker variables
   `_bl_copy1_start`, `_bl_copy2_start`, `_bl_sect_size`, modelled as a
   configuration record. -/

structure StartupCfg where
  bl_copy1_start : Nat
  bl_copy2_start : Nat
  bl_sect_size : Nat

/-- Outcome of `select_bootloader`: a returned copy base address, the
`fatal_error(startup_error_no_bootloader)` path, or the out-of-bounds read
of the local `version[]` array (undefined behaviour in the C source, made
an explicit outcome here). -/
inductive SelectorResult where
  | selected : Nat → SelectorResult
  | noBootloader : SelectorResult
  | outOfBoundsRead : SelectorResult
deriving DecidableEq

/-- Bounds-checked read of the local `uint32_t version[2]` array at the
(possibly -1) C index `selected`. -/
def versionAt (v0 v1 : Nat) (i : Int) : Option Nat :=
  if i = 0 then some v0 else if i = 1 then some v1 else none

/-- One iteration of the replacement-search loop of `select_bootloader`:
`idx != selected && version[idx] == version[selected] &&
bl_icr_verify(bl_addr[idx], ...)`.  Returns `some r` when the loop body
returns (or hits the out-of-bounds read of `version[selected]`), `none` to
continue with the next index. -/
def replacement_step (cfg : StartupCfg) (m : Flash) (v0 v1 : Nat) (sel : Int)
    (idx : Nat) : Option SelectorResult :=
  if (idx : Int) ≠ sel then
    match versionAt v0 v1 sel with
    | none => some .outOfBoundsRead
    | some vs =>
      let vi := if idx = 0 then v0 else v1
      let ai := if idx = 0 then cfg.bl_copy1_start else cfg.bl_copy2_start
      if vi = vs ∧ (bl_icr_verify m ai cfg.bl_sect_size).isSome then
        some (.selected ai)
      else none
  else none

/-- Embedding of `select_bootloader` (startup.c lines 209-244) with the
`n_copies = 2` loops unrolled.  First loop: `version[idx]` is preset to
BL_VERSION_NA and overwritten when `bl_icr_get_version` succeeds, and
`selected` moves to `idx` when `-1 == selected || version[idx] >
version[selected]`.  Then the chosen copy is fully verified, and otherwise
the replacement loop searches for another copy with the same version. -/
def select_bootloader (cfg : StartupCfg) (m : Flash) : SelectorResult :=
  let r0 := bl_icr_get_version m cfg.bl_copy1_start cfg.bl_sect_size
  let r1 := bl_icr_get_version m cfg.bl_copy2_start cfg.bl_sect_size
  let v0 := r0.getD BL_VERSION_NA
  let v1 := r1.getD BL_VERSION_NA
  let sel0 : Int := if r0.isSome then 0 else -1
  let sel : Int :=
    if r1.isSome then
      if sel0 = -1 then 1 else if v1 > v0 then 1 else sel0
    else sel0
  if sel ≥ 0 ∧ (bl_icr_verify m
      (if sel = 0 then cfg.bl_copy1_start else cfg.bl_copy2_start)
      cfg.bl_sect_size).isSome then
    .selected (if sel = 0 then cfg.bl_copy1_start else cfg.bl_copy2_start)
  else
    match replacement_step cfg m v0 v1 sel 0 with
    | some r => r
    | none =>
      match replacement_step cfg m v0 v1 sel 1 with
      | some r => r
      | none => .noBootloader

/-- Configuration for the S6-style selector scenario: copies at 0 and 100,
section size 100. -/
def c2cfg : StartupCfg := ⟨0, 100, 100⟩

/-- Flash image for the S6-style selector scenario: slot 2 carries a fully
valid ICR with version 99 (written by `bl_icr_create`); slot 1 carries a
struct-valid ICR reporting version 100 whose `main_sect.pl_crc` (12345) does
not match the payload, so `bl_icr_get_version` succeeds but full
verification fails. -/
def c2flash : Flash :=
  let m1 := match bl_icr_create zeroFlash 100 100 1 99 with
            | some m => m
            | none => zeroFlash
  flashWriteBytes m1 36 (icrBody 100 1 12345 ++ le32 (crc32_fast (icrBody 100 1 12345) 0))

/-- C2, counterexample to the claim as stated: slot 1 reports version 100
but fails full verification, slot 2 is fully valid with version 99, yet
`select_bootloader` does not return slot 2's base address: it falls through
to the `no_bootloader` fatal error, because the replacement loop requires
the other slot to hold the *same* version. -/
theorem C2_counterexample :
    bl_icr_get_version c2flash 0 100 = some 100 ∧
    bl_icr_verify c2flash 0 100 = none ∧
    bl_icr_verify c2flash 100 100 = some 99 ∧
    select_bootloader c2cfg c2flash = .noBootloader ∧
    select_bootloader c2cfg c2flash ≠ .selected 100 := by decide

/-- C2, amended: when slot 1 reports the strictly higher version but fails
full integrity verification, the selector does not fall back to the
lower-versioned slot 2 (whatever its state): it reports the no-bootloader
fatal error.  The fallback happens only when the other slot holds the same
version. -/
theorem C2_selector_requires_equal_versions (cfg : StartupCfg) (m : Flash) (v1 v2 : Nat)
    (h1 : bl_icr_get_version m cfg.bl_copy1_start cfg.bl_sect_size = some v1)
    (h2 : bl_icr_get_version m cfg.bl_copy2_start cfg.bl_sect_size = some v2)
    (hlt : v2 < v1)
    (hbad : bl_icr_verify m cfg.bl_copy1_start cfg.bl_sect_size = none) :
    select_bootloader cfg m = .noBootloader := by
  have hngt : ¬ (v2 > v1) := by omega
  have hne : v2 ≠ v1 := Nat.ne_of_lt hlt
  unfold select_bootloader replacement_step versionAt
  rw [h1, h2]
  simp [hngt, hne, hbad]

/-- C2 witness for the amended statement, on the concrete S6-style flash. -/
theorem C2_selector_requires_equal_versions_witness :
    select_bootloader c2cfg c2flash = .noBootloader :=
  C2_selector_requires_equal_versions c2cfg c2flash 100 99
    (by decide) (by decide) (by decide) (by decide)

/-- C10: on an all-zero flash both `bl_icr_get_version` calls fail, so
`selected` remains -1 and the replacement-search loop evaluates
`version[selected]`, an out-of-bounds read of the two-element local array
(undefined behaviour of the C source).  The claim that the access stays in
bounds is violated by the code. -/
theorem C10_version_index_out_of_bounds :
    bl_icr_get_version zeroFlash 0 100 = none ∧
    bl_icr_get_version zeroFlash 100 100 = none ∧
    select_bootloader ⟨0, 100, 100⟩ zeroFlash = .outOfBoundsRead := by decide

/- ===================== Upgrade metadata and flash map =====================
   Embedding of the private types of src/core/bootloader.h
   (sect_metadata_t, file_metadata_t, version_info_t, flash_map_t),
   restricted to the fields the modelled operations read. -/

structure SectMetadata where
  plVer : Nat
  plSize : Nat
  plFileOffset : Nat
  loaded : Bool
deriving DecidableEq

structure FileMetadata where
  main_section : SectMetadata
  boot_section : SectMetadata
deriving DecidableEq

structure FlashMap where
  firmware_base : Nat
  firmware_size : Nat
  bootloader_image_base : Nat
  bootloader_copy1_base : Nat
  bootloader_copy2_base : Nat
  bootloader_size : Nat
deriving DecidableEq

structure VersionInfo where
  bootloader_ver : Nat
  main_fw_ver : Nat
deriving DecidableEq

/- ===================== Version policy =====================
   Embedding of check_version / check_versions and the version gate of
   do_upgrade_with_file (src/core/bootloader.c). -/

/-- Result of a version check, ordered by rank as in `version_check_res_t`
(the comment in bootloader.h stresses: ORDER IS IMPORTANT). -/
inductive VersionCheckRes where
  | same
  | newer
  | rc_blocked
  | older
  | invalid
deriving DecidableEq

/-- The C enum value of a version check result; a higher rank is more
severe and dominates in the aggregated result. -/
def VersionCheckRes.rank : VersionCheckRes → Nat
  | .same => 0
  | .newer => 1
  | .rc_blocked => 2
  | .older => 3
  | .invalid => 4

/-- Inverse of `VersionCheckRes.rank` on the enum values. -/
def rankToRes : Nat → VersionCheckRes
  | 0 => .same
  | 1 => .newer
  | 2 => .rc_blocked
  | 3 => .older
  | _ => .invalid

theorem rankToRes_rank (r : VersionCheckRes) : rankToRes r.rank = r := by
  cases r <;> rfl

def bl_flag_allow_rc_versions : Nat := 2

/-- Embedding of `bl_version_is_rc` (src/core/bl_util.h). -/
def bl_version_is_rc (version : Nat) : Bool :=
  (version != BL_VERSION_NA) && decide (version ≤ BL_VERSION_MAX) &&
  decide (version % 100 ≤ 98)

/-- Embedding of `check_version` (bootloader.c lines 630-643). -/
def check_version (new_ver curr_ver flags : Nat) : VersionCheckRes :=
  if new_ver = BL_VERSION_NA ∨ new_ver > BL_VERSION_MAX then .invalid
  else if flags &&& bl_flag_allow_rc_versions = 0 ∧ bl_version_is_rc new_ver then .rc_blocked
  else if new_ver > curr_ver then .newer
  else if new_ver = curr_ver then .same
  else .older

/-- Embedding of `check_versions` (bootloader.c lines 656-675): per-section
results, a section absent from the file contributing version_same, and the
result of the higher rank returned (`check_main >= check_bl ? check_main :
check_bl`). -/
def check_versions (md : FileMetadata) (curr : VersionInfo) (flags : Nat) : VersionCheckRes :=
  let check_bl := if md.boot_section.loaded then
      check_version md.boot_section.plVer curr.bootloader_ver flags else .same
  let check_main := if md.main_section.loaded then
      check_version md.main_section.plVer curr.main_fw_ver flags else .same
  if check_bl.rank ≤ check_main.rank then check_main else check_bl

/-- Per-section version check exactly as C7's wording describes it: invalid
when the file version is 0 or greater than 4199999999, else rc_blocked when
the file version is a release candidate (rc <= 98) and RC versions are not
enabled by flags, else newer, same or older by comparison with the
installed version. -/
def spec_check_version (new_ver curr_ver flags : Nat) : VersionCheckRes :=
  if new_ver = 0 ∨ 4199999999 < new_ver then .invalid
  else if new_ver % 100 ≤ 98 ∧ flags &&& 2 = 0 then .rc_blocked
  else if curr_ver < new_ver then .newer
  else if new_ver = curr_ver then .same
  else .older

theorem check_version_eq_spec (new_ver curr_ver flags : Nat) :
    check_version new_ver curr_ver flags = spec_check_version new_ver curr_ver flags := by
  unfold check_version spec_check_version bl_version_is_rc
  simp only [BL_VERSION_NA, BL_VERSION_MAX, bl_flag_allow_rc_versions]
  by_cases h1 : new_ver = 0 ∨ 4199999999 < new_ver
  · rw [if_pos h1, if_pos h1]
  · rw [if_neg h1, if_neg h1]
    have hrc : (flags &&& 2 = 0 ∧
        ((new_ver != 0) && decide (new_ver ≤ 4199999999) &&
          decide (new_ver % 100 ≤ 98)) = true) ↔
        (new_ver % 100 ≤ 98 ∧ flags &&& 2 = 0) := by
      push_neg at h1
      simp only [Bool.and_eq_true, bne_iff_ne, decide_eq_true_eq]
      constructor
      · rintro ⟨hf, _, hmod⟩; exact ⟨hmod, hf⟩
      · rintro ⟨hmod, hf⟩; exact ⟨hf, ⟨h1.1, by omega⟩, hmod⟩
    rw [if_congr hrc rfl rfl]

/-- C7: `check_versions` returns the higher-ranked of the two per-section
results under the ordering same < newer < rc_blocked < older < invalid, a
section absent from the file contributing the rank of version_same, with the
per-section result as described by the claim (`spec_check_version`). -/
theorem C7_check_versions (md : FileMetadata) (curr : VersionInfo) (flags : Nat) :
    check_versions md curr flags =
      rankToRes (max
        (VersionCheckRes.rank (if md.boot_section.loaded then
            spec_check_version md.boot_section.plVer curr.bootloader_ver flags
          else .same))
        (VersionCheckRes.rank (if md.main_section.loaded then
            spec_check_version md.main_section.plVer curr.main_fw_ver flags
          else .same))) := by
  unfold check_versions
  simp only [← check_version_eq_spec]
  rcases le_or_lt
      (VersionCheckRes.rank (if md.boot_section.loaded then
        check_version md.boot_section.plVer curr.bootloader_ver flags else .same))
      (VersionCheckRes.rank (if md.main_section.loaded then
        check_version md.main_section.plVer curr.main_fw_ver flags else .same)) with h | h
  · rw [if_pos h, Nat.max_eq_right h, rankToRes_rank]
  · rw [if_neg (Nat.not_le.mpr h), Nat.max_eq_left (Nat.le_of_lt h), rankToRes_rank]

/-- Outcome of the version-policy step of `do_upgrade_with_file`. -/
inductive VersionGateRes where
  | skipNotice
  | abortAlert
  | proceed
deriving DecidableEq

/-- Embedding of the version-policy gate of `do_upgrade_with_file`
(bootloader.c lines 1146-1164): on version_same, display a notice and skip
unless the upgrade file carries a main section and the installed Main
Firmware fails ICR verification (self-heal); on any result other than
version_newer, abort with an alert; otherwise proceed with the upgrade. -/
def do_upgrade_version_gate (md : FileMetadata) (curr : VersionInfo) (flags : Nat)
    (m : Flash) (map : FlashMap) : VersionGateRes :=
  let vc := check_versions md curr flags
  if vc = .same then
    if !md.main_section.loaded ||
        (bl_icr_verify m map.firmware_base map.firmware_size).isSome then
      .skipNotice
    else .proceed
  else if vc ≠ .newer then .abortAlert
  else .proceed

/-- Flash map used by the concrete version-gate scenarios. -/
def c8map : FlashMap := ⟨200, 100, 0, 0, 100, 100⟩

/-- Metadata of a boot-only upgrade file (main section absent), boot version
199 (= 0.0.1, a release build). -/
def c8mdBootOnly : FileMetadata := ⟨⟨0, 0, 0, false⟩, ⟨199, 1, 256, true⟩⟩

/-- Installed versions matching the boot-only file: bootloader 199. -/
def c8curr : VersionInfo := ⟨199, 0⟩

/-- C8, counterexample to the claim as stated: a boot-only upgrade file with
the same bootloader version yields the aggregated result version_same; the
installed Main Firmware fails ICR verification (erased flash), yet the
pipeline skips with a notice — it does not continue with a self-heal,
because the file has no main section. -/
theorem C8_counterexample :
    check_versions c8mdBootOnly c8curr 0 = .same ∧
    do_upgrade_version_gate c8mdBootOnly c8curr 0 zeroFlash c8map = .skipNotice ∧
    bl_icr_verify zeroFlash c8map.firmware_base c8map.firmware_size = none := by decide

/-- C8, amended: when the aggregated version check yields version_same, the
upgrade is skipped with a notice exactly when the upgrade file's main
section is absent or the installed Main Firmware passes ICR verification;
it continues (self-heal) exactly when the file carries a main section and
the installed Main Firmware fails ICR verification. -/
theorem C8_same_version_gate (md : FileMetadata) (curr : VersionInfo) (flags : Nat)
    (m : Flash) (map : FlashMap)
    (hsame : check_versions md curr flags = .same) :
    (do_upgrade_version_gate md curr flags m map = .skipNotice ↔
      (md.main_section.loaded = false ∨
        (bl_icr_verify m map.firmware_base map.firmware_size).isSome = true)) ∧
    (do_upgrade_version_gate md curr flags m map = .proceed ↔
      (md.main_section.loaded = true ∧
        bl_icr_verify m map.firmware_base map.firmware_size = none)) := by
  have hgate : do_upgrade_version_gate md curr flags m map =
      if !md.main_section.loaded ||
          (bl_icr_verify m map.firmware_base map.firmware_size).isSome then
        .skipNotice
      else .proceed := by
    unfold do_upgrade_version_gate
    rw [hsame]
    simp
  rw [hgate]
  cases hl : md.main_section.loaded
  · simp [hl]
  · cases hv : bl_icr_verify m map.firmware_base map.firmware_size
    · simp [hv]
    · simp [hv]

/-- Metadata of a main-only upgrade file with the same main version 199. -/
def c8mdMainOnly : FileMetadata := ⟨⟨199, 1, 256, true⟩, ⟨0, 0, 0, false⟩⟩

/-- Installed versions matching the main-only file: main firmware 199. -/
def c8currMain : VersionInfo := ⟨0, 199⟩

/-- C8 witness for the amended statement, on the self-heal instance: same
main version, installed Main Firmware failing verification. -/
theorem C8_same_version_gate_witness :
    (do_upgrade_version_gate c8mdMainOnly c8currMain 0 zeroFlash c8map = .skipNotice ↔
      (c8mdMainOnly.main_section.loaded = false ∨
        (bl_icr_verify zeroFlash c8map.firmware_base c8map.firmware_size).isSome = true)) ∧
    (do_upgrade_version_gate c8mdMainOnly c8currMain 0 zeroFlash c8map = .proceed ↔
      (c8mdMainOnly.main_section.loaded = true ∧
        bl_icr_verify zeroFlash c8map.firmware_base c8map.firmware_size = none)) :=
  C8_same_version_gate c8mdMainOnly c8currMain 0 zeroFlash c8map (by decide)

/- ===================== Upgrade pipeline flash operations =====================
   Embedding of get_inactive_bl_addr, erase_flash, copy_section(s) and
   create_icrs of src/core/bootloader.c.  blsys_flash_erase is modelled as
   filling the region with the erased byte value 0 (the testbench flash
   emulation memsets the erased area to 0); the only property used is that
   it modifies nothing outside [addr, addr + size). -/

/-- Embedding of `get_inactive_bl_addr` (bootloader.c lines 464-468). -/
def get_inactive_bl_addr (map : FlashMap) (bl_addr : Nat) : Nat :=
  if bl_addr = map.bootloader_copy1_base then map.bootloader_copy2_base
  else map.bootloader_copy1_base

/-- Semantics of `blsys_flash_erase`. -/
def blsys_flash_erase (m : Flash) (addr size : Nat) : Flash :=
  fun x => if addr ≤ x ∧ x < addr + size then 0 else m x

theorem blsys_flash_erase_outside (m : Flash) (addr size x : Nat)
    (hx : x < addr ∨ addr + size ≤ x) : blsys_flash_erase m addr size x = m x := by
  unfold blsys_flash_erase
  rw [if_neg]
  omega

/-- First half of `erase_flash` (bootloader.c lines 749-755): erases the
inactive bootloader copy when the upgrade file carries a boot section. -/
def erase_boot (map : FlashMap) (md : FileMetadata) (bl_addr : Nat) (m : Flash) : Flash :=
  if md.boot_section.loaded then
    blsys_flash_erase m (get_inactive_bl_addr map bl_addr) map.bootloader_size
  else m

/-- Second half of `erase_flash` (bootloader.c lines 757-763): erases the
Main Firmware region when the upgrade file carries a main section. -/
def erase_main (map : FlashMap) (md : FileMetadata) (m : Flash) : Flash :=
  if md.main_section.loaded then
    blsys_flash_erase m map.firmware_base map.firmware_size
  else m

/-- Embedding of `erase_flash` (bootloader.c lines 747-768). -/
def erase_flash (map : FlashMap) (md : FileMetadata) (bl_addr : Nat) (m : Flash) : Flash :=
  erase_main map md (erase_boot map md bl_addr m)

/-- Embedding of `copy_section` (bootloader.c lines 817-847): seeks to the
payload's file offset and copies `pl_size` payload bytes into flash at
`flash_addr`; the 4-KiB-chunked fread/flash_write loop of the source writes
exactly these bytes sequentially.  Fails when the file has too little
data. -/
def copy_section (m : Flash) (flash_addr : Nat) (file : List Nat)
    (sect : SectMetadata) : Option Flash :=
  if sect.loaded then
    if sect.plFileOffset + sect.plSize ≤ file.length then
      some (flashWriteBytes m flash_addr ((file.drop sect.plFileOffset).take sect.plSize))
    else none
  else none

/-- Embedding of `copy_sections` (bootloader.c lines 857-877): boot payload
to the inactive bootloader copy, then main payload to the Main Firmware
base. -/
def copy_sections (map : FlashMap) (md : FileMetadata) (bl_addr : Nat)
    (file : List Nat) (m : Flash) : Option Flash :=
  match (if md.boot_section.loaded then
      copy_section m (get_inactive_bl_addr map bl_addr) file md.boot_section
    else some m) with
  | none => none
  | some m1 =>
    if md.main_section.loaded then
      copy_section m1 map.firmware_base file md.main_section
    else some m1

/-- Embedding of `create_icrs` (bootloader.c lines 993-1017): ICR for the
inactive bootloader copy, then ICR for the Main Firmware region. -/
def create_icrs (map : FlashMap) (md : FileMetadata) (bl_addr : Nat) (m : Flash) :
    Option Flash :=
  match (if md.boot_section.loaded then
      bl_icr_create m (get_inactive_bl_addr map bl_addr) map.bootloader_size
        md.boot_section.plSize md.boot_section.plVer
    else some m) with
  | none => none
  | some m1 =>
    if md.main_section.loaded then
      bl_icr_create m1 map.firmware_base map.firmware_size
        md.main_section.plSize md.main_section.plVer
    else some m1

/-- The flash-mutating phase of `do_upgrade_with_file` (bootloader.c lines
1177-1210): erase, copy, create integrity records.  The write-protection
steps change no flash contents and are omitted. -/
def upgrade_flash_phase (map : FlashMap) (md : FileMetadata) (bl_addr : Nat)
    (file : List Nat) (m : Flash) : Option Flash :=
  match copy_sections map md bl_addr file (erase_flash map md bl_addr m) with
  | none => none
  | some m2 => create_icrs map md bl_addr m2

/-- Agreement of an optional flash result with a reference flash at one
address (vacuously true when the pipeline failed). -/
def flashAgreesB (o : Option Flash) (m : Flash) (x : Nat) : Bool :=
  match o with
  | none => true
  | some m2 => m2 x == m x

theorem copy_section_outside {m m2 : Flash} {a : Nat} {file : List Nat}
    {sect : SectMetadata} (h : copy_section m a file sect = some m2) (x : Nat)
    (hx : x < a ∨ a + sect.plSize ≤ x) : m2 x = m x := by
  unfold copy_section at h
  split at h
  case isFalse => exact absurd h (by simp)
  case isTrue =>
    split at h
    case isFalse => exact absurd h (by simp)
    case isTrue hlen =>
      obtain h' := Option.some_inj.mp h
      subst h'
      apply flashWriteBytes_outside
      have hlen2 : ((file.drop sect.plFileOffset).take sect.plSize).length ≤ sect.plSize := by
        rw [List.length_take]
        exact Nat.min_le_left _ _
      omega

theorem bl_icr_create_outside {m m2 : Flash} {a s pl v : Nat}
    (h : bl_icr_create m a s pl v = some m2) (x : Nat)
    (hx : x < a ∨ a + s ≤ x) : m2 x = m x := by
  obtain ⟨hck, hm2eq⟩ := bl_icr_create_elim h
  obtain ⟨hs0, hpl0, _, _, hple⟩ := bl_icr_check_sect_size_elim hck
  rw [hm2eq]
  apply flashWriteBytes_outside
  rw [icrRecord_length]
  have hIA : bl_icr_addr a s = a + s - 64 := rfl
  rw [hIA]
  omega

theorem erase_flash_outside (map : FlashMap) (md : FileMetadata) (bl_addr : Nat)
    (m : Flash) (x : Nat)
    (hxi : x < get_inactive_bl_addr map bl_addr ∨
           get_inactive_bl_addr map bl_addr + map.bootloader_size ≤ x)
    (hxf : x < map.firmware_base ∨ map.firmware_base + map.firmware_size ≤ x) :
    erase_flash map md bl_addr m x = m x := by
  unfold erase_flash erase_main erase_boot
  have h1 : (if md.boot_section.loaded then
      blsys_flash_erase m (get_inactive_bl_addr map bl_addr) map.bootloader_size
    else m) x = m x := by
    split
    · exact blsys_flash_erase_outside _ _ _ _ hxi
    · rfl
  split
  · rw [blsys_flash_erase_outside _ _ _ _ hxf]
    exact h1
  · exact h1

theorem copy_sections_outside {map : FlashMap} {md : FileMetadata} {bl_addr : Nat}
    {file : List Nat} {m m2 : Flash} {x : Nat}
    (h : copy_sections map md bl_addr file m = some m2)
    (hxi : x < get_inactive_bl_addr map bl_addr ∨
           get_inactive_bl_addr map bl_addr + map.bootloader_size ≤ x)
    (hxf : x < map.firmware_base ∨ map.firmware_base + map.firmware_size ≤ x)
    (hfit_boot : md.boot_section.loaded = true →
       md.boot_section.plSize ≤ map.bootloader_size)
    (hfit_main : md.main_section.loaded = true →
       md.main_section.plSize ≤ map.firmware_size) :
    m2 x = m x := by
  unfold copy_sections at h
  cases hs1 : (if md.boot_section.loaded then
      copy_section m (get_inactive_bl_addr map bl_addr) file md.boot_section
    else some m) with
  | none => rw [hs1] at h; exact absurd h (by simp)
  | some m1 =>
    rw [hs1] at h
    have hm1 : m1 x = m x := by
      cases hbl : md.boot_section.loaded
      · rw [hbl] at hs1
        simp only [Bool.false_eq_true, if_false] at hs1
        exact (Option.some_inj.mp hs1) ▸ rfl
      · rw [hbl] at hs1
        simp only [if_true] at hs1
        refine copy_section_outside hs1 x ?_
        have := hfit_boot hbl
        omega
    cases hml : md.main_section.loaded
    · rw [hml] at h
      simp only [Bool.false_eq_true, if_false] at h
      rw [← Option.some_inj.mp h]
      exact hm1
    · rw [hml] at h
      simp only [if_true] at h
      rw [copy_section_outside h x (by have := hfit_main hml; omega)]
      exact hm1

theorem create_icrs_outside {map : FlashMap} {md : FileMetadata} {bl_addr : Nat}
    {m m2 : Flash} {x : Nat}
    (h : create_icrs map md bl_addr m = some m2)
    (hxi : x < get_inactive_bl_addr map bl_addr ∨
           get_inactive_bl_addr map bl_addr + map.bootloader_size ≤ x)
    (hxf : x < map.firmware_base ∨ map.firmware_base + map.firmware_size ≤ x) :
    m2 x = m x := by
  unfold create_icrs at h
  cases hs1 : (if md.boot_section.loaded then
      bl_icr_create m (get_inactive_bl_addr map bl_addr) map.bootloader_size
        md.boot_section.plSize md.boot_section.plVer
    else some m) with
  | none => rw [hs1] at h; exact absurd h (by simp)
  | some m1 =>
    rw [hs1] at h
    have hm1 : m1 x = m x := by
      cases hbl : md.boot_section.loaded
      · rw [hbl] at hs1
        simp only [Bool.false_eq_true, if_false] at hs1
        exact (Option.some_inj.mp hs1) ▸ rfl
      · rw [hbl] at hs1
        simp only [if_true] at hs1
        exact bl_icr_create_outside hs1 x hxi
    cases hml : md.main_section.loaded
    · rw [hml] at h
      simp only [Bool.false_eq_true, if_false] at h
      rw [← Option.some_inj.mp h]
      exact hm1
    · rw [hml] at h
      simp only [if_true] at h
      rw [bl_icr_create_outside h x hxf]
      exact hm1

/-- C1: for a validated `loaded_from` (one of the two copy bases), with the
two bootloader slots disjoint from each other and the Main Firmware region
disjoint from the active copy, and with the per-section size checks that
`check_sect_compatibility` enforces before the flash phase, the whole
erase/copy/ICR phase of the upgrade targets only the inactive copy
(`get_inactive_bl_addr` differs from `loaded_from`) and never modifies any
byte of the active bootloader copy. -/
theorem C1_active_copy_preserved (map : FlashMap) (md : FileMetadata) (bl_addr : Nat)
    (file : List Nat) (m : Flash)
    (hargs : bl_addr = map.bootloader_copy1_base ∨ bl_addr = map.bootloader_copy2_base)
    (hcopies : map.bootloader_copy1_base ≠ map.bootloader_copy2_base)
    (hslots : map.bootloader_copy1_base + map.bootloader_size ≤ map.bootloader_copy2_base ∨
              map.bootloader_copy2_base + map.bootloader_size ≤ map.bootloader_copy1_base)
    (hfw : bl_addr + map.bootloader_size ≤ map.firmware_base ∨
           map.firmware_base + map.firmware_size ≤ bl_addr)
    (hfit_boot : md.boot_section.loaded = true →
       bl_icr_check_sect_size map.bootloader_size md.boot_section.plSize = true)
    (hfit_main : md.main_section.loaded = true →
       bl_icr_check_sect_size map.firmware_size md.main_section.plSize = true) :
    get_inactive_bl_addr map bl_addr ≠ bl_addr ∧
    ∀ x, bl_addr ≤ x → x < bl_addr + map.bootloader_size →
      flashAgreesB (upgrade_flash_phase map md bl_addr file m) m x = true := by
  constructor
  · rcases hargs with h | h
    · subst h
      unfold get_inactive_bl_addr
      rw [if_pos rfl]
      exact fun hh => hcopies hh.symm
    · subst h
      unfold get_inactive_bl_addr
      rw [if_neg (fun hh => hcopies hh.symm)]
      exact hcopies
  · intro x hx1 hx2
    have hxi : x < get_inactive_bl_addr map bl_addr ∨
        get_inactive_bl_addr map bl_addr + map.bootloader_size ≤ x := by
      unfold get_inactive_bl_addr
      rcases hargs with h | h
      · rw [if_pos h]
        rcases hslots with hs | hs
        · left; omega
        · right; omega
      · rw [if_neg (by rw [h]; exact fun hh => hcopies hh.symm)]
        rcases hslots with hs | hs
        · right; omega
        · left; omega
    have hxf : x < map.firmware_base ∨ map.firmware_base + map.firmware_size ≤ x := by
      rcases hfw with h | h
      · left; omega
      · right; omega
    cases hphase : upgrade_flash_phase map md bl_addr file m with
    | none => simp [flashAgreesB]
    | some mf =>
      simp only [flashAgreesB, beq_iff_eq]
      unfold upgrade_flash_phase at hphase
      cases hcopy : copy_sections map md bl_addr file (erase_flash map md bl_addr m) with
      | none => rw [hcopy] at hphase; exact absurd hphase (by simp)
      | some m2 =>
        rw [hcopy] at hphase
        have h1 : erase_flash map md bl_addr m x = m x :=
          erase_flash_outside map md bl_addr m x hxi hxf
        have h2 : m2 x = m x := by
          rw [copy_sections_outside hcopy hxi hxf
            (fun hb => by have := bl_icr_check_sect_size_elim (hfit_boot hb); omega)
            (fun hm' => by have := bl_icr_check_sect_size_elim (hfit_main hm'); omega)]
          exact h1
        rw [create_icrs_outside hphase hxi hxf]
        exact h2

/-- Concrete flash map for the C1 witness: copies at 0 and 100 of size 100,
Main Firmware region at 200 of size 100. -/
def c1map : FlashMap := ⟨200, 100, 0, 0, 100, 100⟩

/-- Metadata of an upgrade file carrying both a boot and a main payload of
one byte each, at file offsets 0 and 1. -/
def c1md : FileMetadata := ⟨⟨1, 1, 1, true⟩, ⟨1, 1, 0, true⟩⟩

/-- Upgrade file contents for the C1 witness. -/
def c1file : List Nat := [7, 8]

/-- C1 witness: on the concrete map the phase succeeds (so its erase, write
and ICR operations all executed) and the active copy byte at address 5 is
untouched. -/
theorem C1_active_copy_preserved_witness :
    (upgrade_flash_phase c1map c1md 0 c1file zeroFlash).isSome = true ∧
    flashAgreesB (upgrade_flash_phase c1map c1md 0 c1file zeroFlash) zeroFlash 5 = true :=
  ⟨by decide,
   (C1_active_copy_preserved c1map c1md 0 c1file zeroFlash (by decide) (by decide)
     (by decide) (by decide) (by decide) (by decide)).2 5 (by decide) (by decide)⟩

/- ===================== Signature verification =====================
   Embedding of src/core/bl_signature.c.  SHA-256 and the secp256k1 ECDSA
   operations are external primitives (excluded collaborators per the
   specification), so the public-key fingerprint function and the raw ECDSA
   check over the Bitcoin-prefixed double-SHA-256 digest are abstracted as
   oracle parameters `fpOf` and `ecdsa_ok`.  A public key is a 65-byte
   list; a key list is terminated by a record whose first byte is 0x00; a
   key set is a list of key lists (NULL-terminated array of pointers in C). -/

def blsig_err_bad_arg : Int := -1
def blsig_err_algo_not_supported : Int := -2
def blsig_err_out_of_memory : Int := -3
def blsig_err_duplicating_sig : Int := -4
def blsig_err_verification_fail : Int := -5
def INT32_MAX : Nat := 2147483647
def VARINT_MAX_ONE_BYTE : Nat := 252
def ALG_SECP256K1_SHA256 : String := "secp256k1-sha256"

/-- Signature record of the Signature-section payload: a 16-byte public-key
fingerprint followed by a 64-byte compact signature (`signature_rec_t`,
80 bytes in total). -/
structure SignatureRec where
  fingerprint : List Nat
  signature : List Nat
deriving DecidableEq

/-- Reinterpretation of the raw Signature-section payload bytes as an array
of 80-byte `signature_rec_t` records (the C code casts the buffer); `fuel`
bounds the recursion and is supplied by `sigRecsOf` as the byte count. -/
def parseSigRecs : Nat → List Nat → List SignatureRec
  | 0, _ => []
  | fuel + 1, bs =>
    if bs.length < 80 then []
    else ⟨bs.take 16, (bs.drop 16).take 64⟩ :: parseSigRecs fuel (bs.drop 80)

def sigRecsOf (bs : List Nat) : List SignatureRec := parseSigRecs bs.length bs

/-- The nested ref/check loops of `check_duplicating_signatures`: true iff
no record shares its fingerprint with a later record. -/
def dupFree : List SignatureRec → Bool
  | [] => true
  | r :: rest => !(rest.any fun x => x.fingerprint == r.fingerprint) && dupFree rest

/-- Embedding of `check_duplicating_signatures` (bl_signature.c lines
63-80): false for an empty record array (argument error), otherwise true
iff there are no duplicating fingerprints. -/
def check_duplicating_signatures (recs : List SignatureRec) : Bool :=
  match recs with
  | [] => false
  | _ :: _ => dupFree recs

/-- Embedding of `bl_pubkey_is_end_record`: the first key byte is 0x00. -/
def bl_pubkey_is_end_record (k : List Nat) : Bool := k.headD 1 == 0

/-- Inner loop of `find_pubkey`: walks one key list until the end record,
comparing each key's fingerprint with the searched one. -/
def find_pubkey_in_list (fpOf : List Nat → List Nat) (fp : List Nat) :
    List (List Nat) → Option (List Nat)
  | [] => none
  | k :: rest =>
    if bl_pubkey_is_end_record k then none
    else if fpOf k == fp then some k
    else find_pubkey_in_list fpOf fp rest

/-- Embedding of `find_pubkey` (bl_signature.c lines 106-124): searches
every key list of the set in order, returning the first key whose
fingerprint matches. -/
def find_pubkey (fpOf : List Nat → List Nat) (keyset : List (List (List Nat)))
    (fp : List Nat) : Option (List Nat) :=
  match keyset with
  | [] => none
  | l :: rest =>
    match find_pubkey_in_list fpOf fp l with
    | some k => some k
    | none => find_pubkey fpOf rest fp

/-- Embedding of `verify_signature` (bl_signature.c lines 136-177): the
argument guards of the source are kept (non-empty message of at most
VARINT_MAX_ONE_BYTE = 252 bytes); the Bitcoin-prefixed double-SHA-256
digest, the public-key/signature parsing and `secp256k1_ecdsa_verify` are
combined into the external oracle `ecdsa_ok`. -/
def verify_signature (ecdsa_ok : List Nat → List Nat → List Nat → Bool)
    (sig message pubkey : List Nat) : Bool :=
  decide (message.length ≠ 0) && decide (message.length ≤ VARINT_MAX_ONE_BYTE) &&
  ecdsa_ok sig message pubkey

/-- The record loop of `blsig_verify_multisig_internal`: records whose
fingerprint matches no key are skipped; a matching record that verifies
increments the count; a matching record that fails verification
short-circuits with verification_fail. -/
def verify_sig_recs (ecdsa_ok : List Nat → List Nat → List Nat → Bool)
    (fpOf : List Nat → List Nat) (keyset : List (List (List Nat)))
    (message : List Nat) : List SignatureRec → Int
  | [] => 0
  | r :: rest =>
    match find_pubkey fpOf keyset r.fingerprint with
    | some k =>
      if verify_signature ecdsa_ok r.signature message k then
        if verify_sig_recs ecdsa_ok fpOf keyset message rest < 0 then
          verify_sig_recs ecdsa_ok fpOf keyset message rest
        else verify_sig_recs ecdsa_ok fpOf keyset message rest + 1
      else blsig_err_verification_fail
    | none => verify_sig_recs ecdsa_ok fpOf keyset message rest

/-- Embedding of `blsig_verify_multisig_internal` (bl_signature.c lines
218-255); the payload byte size is the list length.  (On the 32-bit target
`size_t` is 32 bits wide, so representable payloads always satisfy
`n_sig <= INT32_MAX`.) -/
def blsig_verify_multisig_internal (ecdsa_ok : List Nat → List Nat → List Nat → Bool)
    (fpOf : List Nat → List Nat) (sig_pl : List Nat)
    (keyset : List (List (List Nat))) (message : List Nat) : Int :=
  if 80 ≤ sig_pl.length ∧ sig_pl.length % 80 = 0 ∧ message.length ≠ 0 then
    if check_duplicating_signatures (sigRecsOf sig_pl) = true ∧
        sig_pl.length / 80 ≤ INT32_MAX then
      verify_sig_recs ecdsa_ok fpOf keyset message (sigRecsOf sig_pl)
    else blsig_err_duplicating_sig
  else blsig_err_bad_arg

/-- Embedding of `blsig_verify_multisig` (bl_signature.c lines 257-277):
algorithm dispatch; the preallocated secp256k1 verification context always
fits the static BLSIG_ECDSA_BUF_SIZE buffer, so context creation never
fails. -/
def blsig_verify_multisig (ecdsa_ok : List Nat → List Nat → List Nat → Bool)
    (fpOf : List Nat → List Nat) (algorithm : String) (sig_pl : List Nat)
    (keyset : List (List (List Nat))) (message : List Nat) : Int :=
  if algorithm = ALG_SECP256K1_SHA256 then
    blsig_verify_multisig_internal ecdsa_ok fpOf sig_pl keyset message
  else blsig_err_algo_not_supported

theorem parseSigRecs_length :
    ∀ (fuel : Nat) (bs : List Nat), bs.length ≤ fuel →
      (parseSigRecs fuel bs).length = bs.length / 80 := by
  intro fuel
  induction fuel with
  | zero =>
    intro bs h
    have hz : bs.length = 0 := Nat.le_zero.mp h
    simp [parseSigRecs, hz]
  | succ n ih =>
    intro bs h
    unfold parseSigRecs
    split
    case isTrue hlt =>
      simp only [List.length_nil]
      omega
    case isFalse hge =>
      have hrec := ih (bs.drop 80) (by rw [List.length_drop]; omega)
      simp only [List.length_cons, hrec, List.length_drop]
      omega

theorem dupFree_iff_pairwise (recs : List SignatureRec) :
    dupFree recs = true ↔
      recs.Pairwise (fun a b => a.fingerprint ≠ b.fingerprint) := by
  induction recs with
  | nil => simp [dupFree]
  | cons r rest ih =>
    simp only [dupFree, Bool.and_eq_true, Bool.not_eq_true', List.any_eq_false,
      beq_iff_eq, beq_eq_false_iff_ne, ne_eq, List.pairwise_cons, ih]
    constructor
    · rintro ⟨h1, h2⟩
      exact ⟨fun b hb he => h1 b hb he.symm, h2⟩
    · rintro ⟨h1, h2⟩
      exact ⟨fun b hb he => h1 b hb he.symm, h2⟩

/-- Dichotomy of the record loop: verification_fail exactly when some
record with a matching key fails the ECDSA check, otherwise the count of
records with a matching, verifying key. -/
theorem verify_sig_recs_spec (ecdsa_ok : List Nat → List Nat → List Nat → Bool)
    (fpOf : List Nat → List Nat) (keyset : List (List (List Nat)))
    (message : List Nat) (hm0 : message.length ≠ 0) (hm1 : message.length ≤ 252) :
    ∀ recs : List SignatureRec,
      verify_sig_recs ecdsa_ok fpOf keyset message recs =
        if recs.any (fun r => match find_pubkey fpOf keyset r.fingerprint with
            | some k => !(ecdsa_ok r.signature message k)
            | none => false) then blsig_err_verification_fail
        else ((recs.countP (fun r => match find_pubkey fpOf keyset r.fingerprint with
            | some k => ecdsa_ok r.signature message k
            | none => false)) : Int) := by
  intro recs
  induction recs with
  | nil => simp [verify_sig_recs]
  | cons r rest ih =>
    cases hf : find_pubkey fpOf keyset r.fingerprint with
    | none =>
      have hstep : verify_sig_recs ecdsa_ok fpOf keyset message (r :: rest) =
          verify_sig_recs ecdsa_ok fpOf keyset message rest := by
        simp only [verify_sig_recs]
        rw [hf]
      rw [hstep, ih]
      simp [List.any_cons, List.countP_cons, hf]
    | some k =>
      have hvs : verify_signature ecdsa_ok r.signature message k =
          ecdsa_ok r.signature message k := by
        unfold verify_signature VARINT_MAX_ONE_BYTE
        simp [hm0, hm1]
      have hstep : verify_sig_recs ecdsa_ok fpOf keyset message (r :: rest) =
          (if verify_signature ecdsa_ok r.signature message k then
            if verify_sig_recs ecdsa_ok fpOf keyset message rest < 0 then
              verify_sig_recs ecdsa_ok fpOf keyset message rest
            else verify_sig_recs ecdsa_ok fpOf keyset message rest + 1
          else blsig_err_verification_fail) := by
        simp only [verify_sig_recs]
        rw [hf]
      rw [hstep, hvs, ih]
      cases he : ecdsa_ok r.signature message k
      · simp [List.any_cons, hf, he]
      · by_cases ha : (rest.any fun r => match find_pubkey fpOf keyset r.fingerprint with
            | some k => !(ecdsa_ok r.signature message k)
            | none => false) = true
        · rw [if_pos ha, if_pos (by decide : blsig_err_verification_fail < 0)]
          have hanyc : ((r :: rest).any fun r =>
              match find_pubkey fpOf keyset r.fingerprint with
              | some k => !(ecdsa_ok r.signature message k)
              | none => false) = true := by
            simp [List.any_cons, hf, he, ha]
          rw [if_pos hanyc]
          simp
        · rw [if_neg ha]
          have hnn : ¬ (((rest.countP fun r =>
              match find_pubkey fpOf keyset r.fingerprint with
              | some k => ecdsa_ok r.signature message k
              | none => false) : Nat) : Int) < 0 :=
            not_lt.mpr (Int.natCast_nonneg _)
          rw [if_neg hnn]
          have hanyc : ((r :: rest).any fun r =>
              match find_pubkey fpOf keyset r.fingerprint with
              | some k => !(ecdsa_ok r.signature message k)
              | none => false) = false := by
            simp only [List.any_cons, hf, he, Bool.not_true, Bool.false_or]
            simpa using ha
          have hcondneg : ¬ (((r :: rest).any fun r =>
              match find_pubkey fpOf keyset r.fingerprint with
              | some k => !(ecdsa_ok r.signature message k)
              | none => false) = true) := by
            rw [hanyc]
            exact Bool.false_ne_true
          rw [if_neg hcondneg]
          have hcnt : ((r :: rest).countP fun r =>
              match find_pubkey fpOf keyset r.fingerprint with
              | some k => ecdsa_ok r.signature message k
              | none => false) = (rest.countP fun r =>
              match find_pubkey fpOf keyset r.fingerprint with
              | some k => ecdsa_ok r.signature message k
              | none => false) + 1 := by
            rw [List.countP_cons]
            simp [hf, he]
          rw [hcnt]
          push_cast
          simp

/-- C4: with a duplicate-free payload whose size is a positive multiple of
80 (representable on the 32-bit target), a non-empty key set, and a
non-empty message of at most 252 bytes, `blsig_verify_multisig` with
algorithm "secp256k1-sha256" returns verification_fail iff some record with
a matching key fails the ECDSA check, and otherwise the exact number of
records whose fingerprint matches a key and whose signature verifies;
records with no matching key contribute nothing. -/
theorem C4_multisig_counts (ecdsa_ok : List Nat → List Nat → List Nat → Bool)
    (fpOf : List Nat → List Nat) (sig_pl : List Nat)
    (keyset : List (List (List Nat))) (message : List Nat)
    (hpos : 0 < sig_pl.length) (hmul : sig_pl.length % 80 = 0)
    (hmach : sig_pl.length < 4294967296)
    (hdup : (sigRecsOf sig_pl).Pairwise (fun a b => a.fingerprint ≠ b.fingerprint))
    (hks : keyset ≠ []) (hm0 : 0 < message.length) (hm1 : message.length ≤ 252) :
    blsig_verify_multisig ecdsa_ok fpOf ALG_SECP256K1_SHA256 sig_pl keyset message =
      if (sigRecsOf sig_pl).any (fun r => match find_pubkey fpOf keyset r.fingerprint with
          | some k => !(ecdsa_ok r.signature message k)
          | none => false) then blsig_err_verification_fail
      else (((sigRecsOf sig_pl).countP (fun r =>
          match find_pubkey fpOf keyset r.fingerprint with
          | some k => ecdsa_ok r.signature message k
          | none => false)) : Int) := by
  unfold blsig_verify_multisig
  rw [if_pos rfl]
  unfold blsig_verify_multisig_internal
  rw [if_pos ⟨by omega, hmul, by omega⟩]
  have hlen : (sigRecsOf sig_pl).length = sig_pl.length / 80 :=
    parseSigRecs_length _ _ (Nat.le_refl _)
  have hne : sigRecsOf sig_pl ≠ [] := by
    intro h
    rw [h] at hlen
    simp only [List.length_nil] at hlen
    omega
  have hcdup : check_duplicating_signatures (sigRecsOf sig_pl) = true := by
    cases hc : sigRecsOf sig_pl with
    | nil => exact absurd hc hne
    | cons a l =>
      rw [hc] at hdup
      unfold check_duplicating_signatures
      exact (dupFree_iff_pairwise _).mpr hdup
  have hcap : sig_pl.length / 80 ≤ INT32_MAX := by
    unfold INT32_MAX
    omega
  rw [if_pos ⟨hcdup, hcap⟩]
  exact verify_sig_recs_spec ecdsa_ok fpOf keyset message (by omega) hm1 _

/-- C5: when at least two records of a well-sized payload share a
fingerprint, verification returns duplicating_sig; the result holds for
every ECDSA oracle, i.e. no ECDSA signature verification influences it. -/
theorem C5_duplicates_rejected (ecdsa_ok : List Nat → List Nat → List Nat → Bool)
    (fpOf : List Nat → List Nat) (keyset : List (List (List Nat)))
    (sig_pl message : List Nat)
    (hpos : 0 < sig_pl.length) (hmul : sig_pl.length % 80 = 0)
    (hdup : ¬ (sigRecsOf sig_pl).Pairwise (fun a b => a.fingerprint ≠ b.fingerprint))
    (hm0 : 0 < message.length) :
    blsig_verify_multisig ecdsa_ok fpOf ALG_SECP256K1_SHA256 sig_pl keyset message =
      blsig_err_duplicating_sig := by
  unfold blsig_verify_multisig
  rw [if_pos rfl]
  unfold blsig_verify_multisig_internal
  rw [if_pos ⟨by omega, hmul, by omega⟩]
  rw [if_neg]
  rintro ⟨hc, _⟩
  cases hcase : sigRecsOf sig_pl with
  | nil =>
    rw [hcase] at hc
    exact absurd hc (by simp [check_duplicating_signatures])
  | cons a l =>
    rw [hcase] at hc hdup
    unfold check_duplicating_signatures at hc
    exact hdup ((dupFree_iff_pairwise _).mp hc)

/-- One vendor public key for the witnesses: prefix 0x04 followed by 64
bytes of 7. -/
def c4key : List Nat := 4 :: List.replicate 64 7

/-- End-of-list key record (first byte 0x00). -/
def c4end : List Nat := List.replicate 65 0

/-- Key set with a single vendor key list. -/
def c4keyset : List (List (List Nat)) := [[c4key, c4end]]

/-- Oracle fingerprint: the first 16 key bytes. -/
def c4fp : List Nat → List Nat := fun k => k.take 16

/-- ECDSA oracle accepting everything. -/
def c4yes : List Nat → List Nat → List Nat → Bool := fun _ _ _ => true

/-- One signature record whose fingerprint matches `c4key` under `c4fp`. -/
def c4rec : List Nat := (4 :: List.replicate 15 7) ++ List.replicate 64 9

/-- Message for the signature witnesses. -/
def c4msg : List Nat := [1, 2, 3]

/-- C4 witness: one matching, verifying record counts exactly 1. -/
theorem C4_multisig_counts_witness :
    blsig_verify_multisig c4yes c4fp ALG_SECP256K1_SHA256 c4rec c4keyset c4msg = 1 := by
  rw [C4_multisig_counts c4yes c4fp c4rec c4keyset c4msg (by decide) (by decide)
    (by decide) (by decide) (by decide) (by decide) (by decide)]
  decide

/-- C5 witness: the same record twice is rejected as a duplicate. -/
theorem C5_duplicates_rejected_witness :
    blsig_verify_multisig c4yes c4fp ALG_SECP256K1_SHA256 (c4rec ++ c4rec)
      c4keyset c4msg = blsig_err_duplicating_sig :=
  C5_duplicates_rejected c4yes c4fp c4keyset (c4rec ++ c4rec) c4msg
    (by decide) (by decide) (by decide) (by decide)

/- ===================== Section headers and read_metadata =====================
   Embedding of the header validation of src/core/bl_section.c and of
   read_metadata of src/core/bootloader.c, both operating on raw bytes of
   the packed structures. -/

def BL_SECT_MAGIC : Nat := 0x54434553
def BL_SECT_STRUCT_REV : Nat := 1
def BL_PAYLOAD_SIZE_MAX : Nat := 16 * 1024 * 1024
def MAX_SIGSECTION_SIZE : Nat := 32 * 80

def is_letter (c : Nat) : Bool :=
  (decide (97 ≤ c) && decide (c ≤ 122)) || (decide (65 ≤ c) && decide (c ≤ 90))

def is_digit (c : Nat) : Bool := decide (48 ≤ c) && decide (c ≤ 57)

/-- Scan of `validate_section_name` from the second byte on: letters or
digits until the first zero byte, from which on the rest of the buffer
(terminator included) must be zero (`bl_memveq`); a name with no
terminator inside the buffer is rejected. -/
def name_tail_ok : List Nat → Bool
  | [] => false
  | c :: rest =>
    if c = 0 then rest.all (fun byte => byte == 0)
    else (is_letter c || is_digit c) && name_tail_ok rest

/-- Embedding of `validate_section_name` (bl_section.c lines 71-84) on the
16-byte name buffer: non-empty, first character a letter. -/
def validate_section_name (nm : List Nat) : Bool :=
  match nm with
  | [] => false
  | c :: rest => is_letter c && name_tail_ok rest

/-- The scanner loop of `validate_attributes` (bl_section.c lines 97-123):
records (key, size, value[size]) until the first zero key, each record
fitting fully, and all bytes after the terminator zero.  `fuel` bounds the
iteration count; every iteration consumes at least one byte, so the buffer
length suffices. -/
def attrs_ok : Nat → List Nat → Bool
  | _, [] => true
  | 0, _ :: _ => false
  | fuel + 1, key :: rest =>
    if key = 0 then
      if rest.isEmpty then true else rest.all (fun byte => byte == 0)
    else
      match rest with
      | [] => false
      | size :: rest2 =>
        if size ≤ rest2.length then attrs_ok fuel (rest2.drop size) else false

/-- Embedding of `validate_attributes` on the 216-byte attribute buffer. -/
def validate_attributes (al : List Nat) : Bool :=
  decide (2 ≤ al.length) && attrs_ok al.length al

/-- Name field of a section header: 16 bytes at offset 8 of the packed
`bl_section_t` (magic 0..3, struct_rev 4..7, name 8..23, pl_ver 24..27,
pl_size 28..31, pl_crc 32..35, attr_list 36..251, struct_crc 252..255). -/
def headerName (h : List Nat) : List Nat := (h.drop 8).take 16

def headerPlVer (h : List Nat) : Nat := readLe32 (h.drop 24)

def headerPlSize (h : List Nat) : Nat := readLe32 (h.drop 28)

def headerPlCrc (h : List Nat) : Nat := readLe32 (h.drop 32)

/-- Embedding of `blsect_validate_header` (bl_section.c lines 125-140) on
the raw 256 header bytes: magic, struct revision, struct CRC over the first
252 bytes, name rules, version range, payload size range, attribute
list. -/
def blsect_validate_header (h : List Nat) : Bool :=
  (readLe32 h == BL_SECT_MAGIC) && (readLe32 (h.drop 4) == BL_SECT_STRUCT_REV) &&
  (crc32_fast (h.take 252) 0 == readLe32 (h.drop 252)) &&
  validate_section_name (headerName h) &&
  decide (headerPlVer h ≤ BL_VERSION_MAX) &&
  (headerPlSize h != 0) && decide (headerPlSize h ≤ BL_PAYLOAD_SIZE_MAX) &&
  validate_attributes ((h.drop 36).take 216)

/-- C-string content of a (terminated) name buffer: the bytes before the
first zero, which is what `bl_streq`'s strcmp compares. -/
def cstrOf (bs : List Nat) : List Nat := bs.takeWhile (fun byte => byte != 0)

def signNameBytes : List Nat := [115, 105, 103, 110]

def bootNameBytes : List Nat := [98, 111, 111, 116]

def mainNameBytes : List Nat := [109, 97, 105, 110]

/-- Embedding of `blsect_is_signature`: the section name equals "sign". -/
def blsect_is_signature (h : List Nat) : Bool :=
  cstrOf (headerName h) == signNameBytes

/-- Embedding of `blsect_validate_payload` (bl_section.c lines 142-148) on
a buffer holding the payload bytes: size guards and payload CRC-32. -/
def blsect_validate_payload (h : List Nat) (pl : List Nat) : Bool :=
  (headerPlSize h != 0) && decide (headerPlSize h ≤ BL_PAYLOAD_SIZE_MAX) &&
  (headerPlCrc h == crc32_fast (pl.take (headerPlSize h)) 0)

/-- The section loop of `read_metadata` (bootloader.c lines 517-568),
modelled on the unread suffix of the file.  (The source maintains the
invariant `file position + rm_bytes = file size`; reading the 256-byte
header and reading or seeking past the payload consume exactly the bytes
subtracted from rm_bytes, and the `pl_file_offset < hdr_len` check cannot
fire under exact arithmetic.)  The three booleans are the `loaded` flags of
the boot, main and signature metadata slots.  `fuel` bounds the iteration
count; every iteration consumes at least 256 bytes, so `read_metadata`
supplies the file length. -/
def read_metadata_loop : Nat → List Nat → Bool → Bool → Bool → Bool
  | 0, bs, b, m, s => (m || b) && s && bs.isEmpty
  | fuel + 1, bs, b, m, s =>
    if bs.length < 256 then (m || b) && s && bs.isEmpty
    else if !(blsect_validate_header (bs.take 256)) then false
    else if 256 + headerPlSize (bs.take 256) > bs.length then false
    else if blsect_is_signature (bs.take 256) then
      if s || decide (headerPlSize (bs.take 256) > MAX_SIGSECTION_SIZE) then false
      else if !(blsect_validate_payload (bs.take 256)
          ((bs.drop 256).take (headerPlSize (bs.take 256)))) then false
      else read_metadata_loop fuel
        ((bs.drop 256).drop (headerPlSize (bs.take 256))) b m true
    else if (cstrOf (headerName (bs.take 256)) == bootNameBytes) && !b then
      read_metadata_loop fuel
        ((bs.drop 256).drop (headerPlSize (bs.take 256))) true m s
    else if (cstrOf (headerName (bs.take 256)) == mainNameBytes) && !m then
      read_metadata_loop fuel
        ((bs.drop 256).drop (headerPlSize (bs.take 256))) b true s
    else false

/-- Embedding of `read_metadata`: the loop starting from an empty metadata
structure, with the final result `(main.loaded || boot.loaded) &&
sig.loaded && !rm_bytes`. -/
def read_metadata (file : List Nat) : Bool :=
  read_metadata_loop file.length file false false false

/-- One section of an upgrade file as the claim describes it: a 256-byte
header followed by its payload bytes. -/
structure SpecSect where
  hdr : List Nat
  pl : List Nat

/-- Byte image of a section inside the file. -/
def SpecSect.bytes (x : SpecSect) : List Nat := x.hdr ++ x.pl

/-- Byte image of a list of sections: their concatenation. -/
def sectsBytes : List SpecSect → List Nat
  | [] => []
  | x :: t => x.bytes ++ sectsBytes t

/-- Well-formedness of one section per the claim: a 256-byte header passing
header validation, immediately followed by exactly pl_size payload
bytes. -/
def sectWF (x : SpecSect) : Prop :=
  x.hdr.length = 256 ∧ blsect_validate_header x.hdr = true ∧
  x.pl.length = headerPlSize x.hdr

/-- The claim's signature-section constraint: payload at most 32*80 bytes,
matching its header CRC. -/
def sigWF (x : SpecSect) : Prop :=
  x.pl.length ≤ MAX_SIGSECTION_SIZE ∧ headerPlCrc x.hdr = crc32_fast x.pl 0

/-- Number of signature sections. -/
def countSig : List SpecSect → Nat
  | [] => 0
  | x :: t => (if blsect_is_signature x.hdr then 1 else 0) + countSig t

/-- Number of payload (non-signature) sections. -/
def countPayload : List SpecSect → Nat
  | [] => 0
  | x :: t => (if blsect_is_signature x.hdr then 0 else 1) + countPayload t

/-- Number of sections carrying a given name. -/
def countName (nm : List Nat) : List SpecSect → Nat
  | [] => 0
  | x :: t => (if cstrOf (headerName x.hdr) == nm then 1 else 0) + countName nm t

/-- C6's description of a valid upgrade file: exactly a concatenation of
sections, each a 256-byte header passing header validation immediately
followed by pl_size payload bytes, with no trailing bytes, containing
exactly one signature section (payload at most 32*80 bytes and matching its
header CRC) and at least one payload section, where every payload section
is named "boot" or "main" and no payload section name occurs twice. -/
def SpecUpgradeFile (file : List Nat) : Prop :=
  ∃ secs : List SpecSect,
    file = sectsBytes secs ∧
    (∀ x ∈ secs, sectWF x) ∧
    countSig secs = 1 ∧
    (∀ x ∈ secs, blsect_is_signature x.hdr = true → sigWF x) ∧
    1 ≤ countPayload secs ∧
    (∀ x ∈ secs, blsect_is_signature x.hdr = false →
      cstrOf (headerName x.hdr) = bootNameBytes ∨
      cstrOf (headerName x.hdr) = mainNameBytes) ∧
    countName bootNameBytes secs ≤ 1 ∧
    countName mainNameBytes secs ≤ 1

/-- Invariant of `read_metadata_loop` relative to the already-loaded flags:
the remaining bytes decompose into sections, with exactly one signature
section still to come unless one is already loaded, at most one boot and
one main section still to come (none when already loaded), and a payload
section present unless one is already loaded. -/
def LoopSpec (bs : List Nat) (b m s : Bool) : Prop :=
  ∃ secs : List SpecSect,
    bs = sectsBytes secs ∧
    (∀ x ∈ secs, sectWF x) ∧
    countSig secs = (if s then 0 else 1) ∧
    (∀ x ∈ secs, blsect_is_signature x.hdr = true → sigWF x) ∧
    (b = true ∨ m = true ∨ 1 ≤ countPayload secs) ∧
    (∀ x ∈ secs, blsect_is_signature x.hdr = false →
      cstrOf (headerName x.hdr) = bootNameBytes ∨
      cstrOf (headerName x.hdr) = mainNameBytes) ∧
    countName bootNameBytes secs ≤ (if b then 0 else 1) ∧
    countName mainNameBytes secs ≤ (if m then 0 else 1)

theorem sectsBytes_cons (x : SpecSect) (t : List SpecSect) :
    sectsBytes (x :: t) = x.hdr ++ (x.pl ++ sectsBytes t) := by
  show x.bytes ++ sectsBytes t = _
  unfold SpecSect.bytes
  rw [List.append_assoc]

/-- Payload-size conjuncts of a validated header. -/
theorem blsect_validate_header_plsize {h : List Nat}
    (hv : blsect_validate_header h = true) :
    headerPlSize h ≠ 0 ∧ headerPlSize h ≤ BL_PAYLOAD_SIZE_MAX := by
  simp only [blsect_validate_header, Bool.and_eq_true, bne_iff_ne,
    decide_eq_true_eq] at hv
  exact ⟨hv.1.1.2, hv.1.2⟩

/-- In a terminal state (fewer than 256 bytes left), the loop's final check
agrees with the decomposition invariant. -/
theorem loopSpec_terminal (bs : List Nat) (b m s : Bool) (hlt : bs.length < 256) :
    (((m || b) && s && bs.isEmpty) = true) ↔ LoopSpec bs b m s := by
  have hempty : ∀ secs : List SpecSect, (∀ x ∈ secs, sectWF x) →
      bs = sectsBytes secs → secs = [] := by
    intro secs hwf hbytes
    cases secs with
    | nil => rfl
    | cons x t =>
      exfalso
      have hx := hwf x (by simp)
      have hlen := congrArg List.length hbytes
      rw [sectsBytes_cons] at hlen
      simp only [List.length_append, hx.1] at hlen
      omega
  constructor
  · intro hl
    simp only [Bool.and_eq_true, Bool.or_eq_true, List.isEmpty_iff] at hl
    obtain ⟨⟨hmb, hs⟩, hnil⟩ := hl
    subst hnil
    refine ⟨[], rfl, by simp, ?_, by simp, ?_, by simp, ?_, ?_⟩
    · simp [countSig, hs]
    · rcases hmb with hm | hb
      · exact Or.inr (Or.inl hm)
      · exact Or.inl hb
    · simp [countName]
    · simp [countName]
  · rintro ⟨secs, hbytes, hwf, hsig, _, hor, _, _, _⟩
    have hsecs := hempty secs hwf hbytes
    subst hsecs
    simp only [sectsBytes] at hbytes
    subst hbytes
    simp only [countSig] at hsig
    have hs : s = true := by
      cases s
      · simp at hsig
      · rfl
    have hmb : (m || b) = true := by
      rcases hor with hb | hm | hp
      · simp [hb]
      · simp [hm]
      · simp [countPayload] at hp
    simp [hmb, hs]

/-- The first section of a decomposition of a buffer holding at least one
section is forced: its header is `bs.take 256`, its payload the following
`headerPlSize` bytes, and the rest of the buffer is the remaining
sections. -/
theorem loopSpec_head {bs : List Nat} {secs : List SpecSect}
    (hbytes : bs = sectsBytes secs) (hwf : ∀ x ∈ secs, sectWF x)
    (hne : bs ≠ []) :
    ∃ x t, secs = x :: t ∧ x.hdr = bs.take 256 ∧
      x.pl = (bs.drop 256).take (headerPlSize (bs.take 256)) ∧
      sectsBytes t = (bs.drop 256).drop (headerPlSize (bs.take 256)) ∧
      256 + headerPlSize (bs.take 256) ≤ bs.length := by
  cases secs with
  | nil =>
    exact absurd (by simpa [sectsBytes] using hbytes) hne
  | cons x t =>
    obtain ⟨hxh, hxv, hxp⟩ := hwf x (by simp)
    have hb : bs = x.hdr ++ (x.pl ++ sectsBytes t) := by
      rw [hbytes, sectsBytes_cons]
    have htake : bs.take 256 = x.hdr := by
      rw [hb, List.take_left' hxh]
    have hdrop : bs.drop 256 = x.pl ++ sectsBytes t := by
      rw [hb, ← hxh, List.drop_left]
    have hpls : headerPlSize (bs.take 256) = x.pl.length := by
      rw [htake, hxp]
    refine ⟨x, t, rfl, htake.symm, ?_, ?_, ?_⟩
    · rw [hdrop, hpls, List.take_left]
    · rw [hdrop, hpls, List.drop_left]
    · have hlen := congrArg List.length hb
      simp only [List.length_append, hxh] at hlen
      omega

theorem boot_ne_sign : (bootNameBytes == signNameBytes) = false := by decide
theorem main_ne_sign : (mainNameBytes == signNameBytes) = false := by decide
theorem sign_ne_boot : (signNameBytes == bootNameBytes) = false := by decide
theorem sign_ne_main : (signNameBytes == mainNameBytes) = false := by decide
theorem boot_ne_main : (bootNameBytes == mainNameBytes) = false := by decide
theorem main_ne_boot : (mainNameBytes == bootNameBytes) = false := by decide

/-- Builds the invariant at `bs` from the invariant at the remainder when
the leading 256 + pl_size bytes form the signature section. -/
theorem loopSpec_build_sig {bs : List Nat} {b m : Bool}
    (hge : 256 ≤ bs.length)
    (hval : blsect_validate_header (bs.take 256) = true)
    (hfits : 256 + headerPlSize (bs.take 256) ≤ bs.length)
    (hsig : blsect_is_signature (bs.take 256) = true)
    (hmax : headerPlSize (bs.take 256) ≤ MAX_SIGSECTION_SIZE)
    (hcrc : headerPlCrc (bs.take 256) =
      crc32_fast ((bs.drop 256).take (headerPlSize (bs.take 256))) 0)
    (htail : LoopSpec ((bs.drop 256).drop (headerPlSize (bs.take 256))) b m true) :
    LoopSpec bs b m false := by
  obtain ⟨t, htb, htwf, htsig, htsg, htor, htnames, htcb, htcm⟩ := htail
  have hnm : cstrOf (headerName (bs.take 256)) = signNameBytes := by
    unfold blsect_is_signature at hsig
    exact beq_iff_eq.mp hsig
  have hplen : ((bs.drop 256).take (headerPlSize (bs.take 256))).length =
      headerPlSize (bs.take 256) := by
    rw [List.length_take, List.length_drop]
    omega
  refine ⟨⟨bs.take 256, (bs.drop 256).take (headerPlSize (bs.take 256))⟩ :: t,
    ?_, ?_, ?_, ?_, ?_, ?_, ?_, ?_⟩
  · rw [sectsBytes_cons, ← htb, List.take_append_drop, List.take_append_drop]
  · intro x hx
    rcases List.mem_cons.mp hx with hx | hx
    · subst hx
      exact ⟨by rw [List.length_take]; omega, hval, hplen⟩
    · exact htwf x hx
  · simp only [countSig, hsig, if_true, htsig]
    decide
  · intro x hx hxs
    rcases List.mem_cons.mp hx with hx | hx
    · subst hx
      exact ⟨by rw [hplen]; exact hmax, hcrc⟩
    · exact htsg x hx hxs
  · simp only [countPayload, hsig, if_true, Nat.zero_add]
    exact htor
  · intro x hx hxs
    rcases List.mem_cons.mp hx with hx | hx
    · subst hx
      exact absurd hxs (by simp [hsig])
    · exact htnames x hx hxs
  · simp only [countName, hnm, sign_ne_boot, Bool.false_eq_true, if_false, Nat.zero_add]
    exact htcb
  · simp only [countName, hnm, sign_ne_main, Bool.false_eq_true, if_false, Nat.zero_add]
    exact htcm

/-- Builds the invariant at `bs` from the invariant at the remainder when
the leading bytes form a payload section named "boot". -/
theorem loopSpec_build_boot {bs : List Nat} {m s : Bool}
    (hge : 256 ≤ bs.length)
    (hval : blsect_validate_header (bs.take 256) = true)
    (hfits : 256 + headerPlSize (bs.take 256) ≤ bs.length)
    (hnotsig : blsect_is_signature (bs.take 256) = false)
    (hname : cstrOf (headerName (bs.take 256)) = bootNameBytes)
    (htail : LoopSpec ((bs.drop 256).drop (headerPlSize (bs.take 256))) true m s) :
    LoopSpec bs false m s := by
  obtain ⟨t, htb, htwf, htsig, htsg, htor, htnames, htcb, htcm⟩ := htail
  have hplen : ((bs.drop 256).take (headerPlSize (bs.take 256))).length =
      headerPlSize (bs.take 256) := by
    rw [List.length_take, List.length_drop]
    omega
  refine ⟨⟨bs.take 256, (bs.drop 256).take (headerPlSize (bs.take 256))⟩ :: t,
    ?_, ?_, ?_, ?_, ?_, ?_, ?_, ?_⟩
  · rw [sectsBytes_cons, ← htb, List.take_append_drop, List.take_append_drop]
  · intro x hx
    rcases List.mem_cons.mp hx with hx | hx
    · subst hx
      exact ⟨by rw [List.length_take]; omega, hval, hplen⟩
    · exact htwf x hx
  · simp only [countSig, hnotsig, Bool.false_eq_true, if_false, Nat.zero_add]
    exact htsig
  · intro x hx hxs
    rcases List.mem_cons.mp hx with hx | hx
    · subst hx
      exact absurd hxs (by simp [hnotsig])
    · exact htsg x hx hxs
  · right; right
    simp only [countPayload, hnotsig, Bool.false_eq_true, if_false]
    omega
  · intro x hx hxs
    rcases List.mem_cons.mp hx with hx | hx
    · subst hx
      exact Or.inl hname
    · exact htnames x hx hxs
  · simp only [countName, hname, beq_self_eq_true, if_true]
    have h0 : countName bootNameBytes t = 0 := by
      simpa using htcb
    simp [h0]
  · simp only [countName, hname, boot_ne_main, Bool.false_eq_true, if_false,
      Nat.zero_add]
    exact htcm

/-- Builds the invariant at `bs` from the invariant at the remainder when
the leading bytes form a payload section named "main". -/
theorem loopSpec_build_main {bs : List Nat} {b s : Bool}
    (hge : 256 ≤ bs.length)
    (hval : blsect_validate_header (bs.take 256) = true)
    (hfits : 256 + headerPlSize (bs.take 256) ≤ bs.length)
    (hnotsig : blsect_is_signature (bs.take 256) = false)
    (hname : cstrOf (headerName (bs.take 256)) = mainNameBytes)
    (htail : LoopSpec ((bs.drop 256).drop (headerPlSize (bs.take 256))) b true s) :
    LoopSpec bs b false s := by
  obtain ⟨t, htb, htwf, htsig, htsg, htor, htnames, htcb, htcm⟩ := htail
  have hplen : ((bs.drop 256).take (headerPlSize (bs.take 256))).length =
      headerPlSize (bs.take 256) := by
    rw [List.length_take, List.length_drop]
    omega
  refine ⟨⟨bs.take 256, (bs.drop 256).take (headerPlSize (bs.take 256))⟩ :: t,
    ?_, ?_, ?_, ?_, ?_, ?_, ?_, ?_⟩
  · rw [sectsBytes_cons, ← htb, List.take_append_drop, List.take_append_drop]
  · intro x hx
    rcases List.mem_cons.mp hx with hx | hx
    · subst hx
      exact ⟨by rw [List.length_take]; omega, hval, hplen⟩
    · exact htwf x hx
  · simp only [countSig, hnotsig, Bool.false_eq_true, if_false, Nat.zero_add]
    exact htsig
  · intro x hx hxs
    rcases List.mem_cons.mp hx with hx | hx
    · subst hx
      exact absurd hxs (by simp [hnotsig])
    · exact htsg x hx hxs
  · right; right
    simp only [countPayload, hnotsig, Bool.false_eq_true, if_false]
    omega
  · intro x hx hxs
    rcases List.mem_cons.mp hx with hx | hx
    · subst hx
      exact Or.inr hname
    · exact htnames x hx hxs
  · simp only [countName, hname, main_ne_boot, Bool.false_eq_true, if_false,
      Nat.zero_add]
    exact htcb
  · simp only [countName, hname, beq_self_eq_true, if_true]
    have h0 : countName mainNameBytes t = 0 := by
      simpa using htcm
    simp [h0]

/-- Destructs the invariant at a buffer holding at least one section: the
leading header validates and fits, and depending on its name the invariant
descends to the remainder with the corresponding flag set. -/
theorem loopSpec_destruct {bs : List Nat} {b m s : Bool}
    (hge : 256 ≤ bs.length) (hspec : LoopSpec bs b m s) :
    blsect_validate_header (bs.take 256) = true ∧
    256 + headerPlSize (bs.take 256) ≤ bs.length ∧
    ((blsect_is_signature (bs.take 256) = true ∧ s = false ∧
        headerPlSize (bs.take 256) ≤ MAX_SIGSECTION_SIZE ∧
        headerPlCrc (bs.take 256) =
          crc32_fast ((bs.drop 256).take (headerPlSize (bs.take 256))) 0 ∧
        LoopSpec ((bs.drop 256).drop (headerPlSize (bs.take 256))) b m true) ∨
      (blsect_is_signature (bs.take 256) = false ∧
        cstrOf (headerName (bs.take 256)) = bootNameBytes ∧ b = false ∧
        LoopSpec ((bs.drop 256).drop (headerPlSize (bs.take 256))) true m s) ∨
      (blsect_is_signature (bs.take 256) = false ∧
        cstrOf (headerName (bs.take 256)) = mainNameBytes ∧ m = false ∧
        LoopSpec ((bs.drop 256).drop (headerPlSize (bs.take 256))) b true s)) := by
  obtain ⟨secs, hbytes, hwf, hsig, hsg, hor, hnames, hcb, hcm⟩ := hspec
  have hne : bs ≠ [] := by
    intro h
    rw [h] at hge
    simp at hge
  obtain ⟨x, t, hxt, hxh, hxp, htb, hfits⟩ := loopSpec_head hbytes hwf hne
  subst hxt
  obtain ⟨hxh256, hxval, hxpl⟩ := hwf x (by simp)
  have hplshead : headerPlSize (bs.take 256) = x.pl.length := by
    rw [← hxh, ← hxpl]
  refine ⟨by rw [← hxh]; exact hxval, hfits, ?_⟩
  cases hsigx : blsect_is_signature x.hdr with
  | true =>
    left
    have hnm : cstrOf (headerName x.hdr) = signNameBytes := by
      unfold blsect_is_signature at hsigx
      exact beq_iff_eq.mp hsigx
    simp only [countSig, hsigx, if_true] at hsig
    have hs : s = false ∧ countSig t = 0 := by
      cases s
      · simp only [Bool.false_eq_true, if_false] at hsig
        exact ⟨rfl, by omega⟩
      · simp only [if_true] at hsig
        omega
    obtain ⟨higmax, higcrc⟩ := hsg x (by simp) hsigx
    refine ⟨by rw [← hxh]; exact hsigx, hs.1, ?_, ?_, ?_⟩
    · rw [hplshead]
      exact higmax
    · rw [← hxp, ← hxh]
      exact higcrc
    · refine ⟨t, htb.symm, fun y hy => hwf y (by simp [hy]), by simp [hs.2],
        fun y hy hys => hsg y (by simp [hy]) hys, ?_,
        fun y hy hys => hnames y (by simp [hy]) hys, ?_, ?_⟩
      · simp only [countPayload, hsigx, if_true, Nat.zero_add] at hor
        exact hor
      · simp only [countName, hnm, sign_ne_boot, Bool.false_eq_true, if_false,
          Nat.zero_add] at hcb
        exact hcb
      · simp only [countName, hnm, sign_ne_main, Bool.false_eq_true, if_false,
          Nat.zero_add] at hcm
        exact hcm
  | false =>
    rcases hnames x (by simp) hsigx with hnm | hnm
    · right; left
      simp only [countName, hnm, beq_self_eq_true, if_true] at hcb
      have hb : b = false := by
        cases b
        · rfl
        · simp only [if_true] at hcb
          omega
      subst hb
      simp only [Bool.false_eq_true, if_false] at hcb
      refine ⟨by rw [← hxh]; exact hsigx, by rw [← hxh]; exact hnm, rfl, ?_⟩
      refine ⟨t, htb.symm, fun y hy => hwf y (by simp [hy]), ?_,
        fun y hy hys => hsg y (by simp [hy]) hys, Or.inl rfl,
        fun y hy hys => hnames y (by simp [hy]) hys, ?_, ?_⟩
      · simp only [countSig, hsigx, Bool.false_eq_true, if_false,
          Nat.zero_add] at hsig
        exact hsig
      · simp only [if_true]
        omega
      · simp only [countName, hnm, boot_ne_main, Bool.false_eq_true, if_false,
          Nat.zero_add] at hcm
        exact hcm
    · right; right
      simp only [countName, hnm, beq_self_eq_true, if_true] at hcm
      have hm : m = false := by
        cases m
        · rfl
        · simp only [if_true] at hcm
          omega
      subst hm
      simp only [Bool.false_eq_true, if_false] at hcm
      refine ⟨by rw [← hxh]; exact hsigx, by rw [← hxh]; exact hnm, rfl, ?_⟩
      refine ⟨t, htb.symm, fun y hy => hwf y (by simp [hy]), ?_,
        fun y hy hys => hsg y (by simp [hy]) hys, Or.inr (Or.inl rfl),
        fun y hy hys => hnames y (by simp [hy]) hys, ?_, ?_⟩
      · simp only [countSig, hsigx, Bool.false_eq_true, if_false,
          Nat.zero_add] at hsig
        exact hsig
      · simp only [countName, hnm, main_ne_boot, Bool.false_eq_true, if_false,
          Nat.zero_add] at hcb
        exact hcb
      · simp only [if_true]
        omega

/-- Given fuel at least the buffer length, the metadata loop returns true
exactly on buffers satisfying the decomposition invariant. -/
theorem read_metadata_loop_iff :
    ∀ (fuel : Nat) (bs : List Nat) (b m s : Bool), bs.length ≤ fuel →
      (read_metadata_loop fuel bs b m s = true ↔ LoopSpec bs b m s) := by
  intro fuel
  induction fuel with
  | zero =>
    intro bs b m s hle
    simp only [read_metadata_loop]
    exact loopSpec_terminal bs b m s (by omega)
  | succ n ih =>
    intro bs b m s hle
    by_cases hlt : bs.length < 256
    · simp only [read_metadata_loop]
      rw [if_pos hlt]
      exact loopSpec_terminal bs b m s hlt
    · have hge : 256 ≤ bs.length := not_lt.mp hlt
      constructor
      · intro hl
        simp only [read_metadata_loop] at hl
        rw [if_neg hlt] at hl
        cases hv : blsect_validate_header (bs.take 256) with
        | false =>
          rw [hv] at hl
          simp only [Bool.not_false, if_true] at hl
          exact absurd hl Bool.false_ne_true
        | true =>
          rw [hv] at hl
          simp only [Bool.not_true, Bool.false_eq_true, if_false] at hl
          by_cases hbig : 256 + headerPlSize (bs.take 256) > bs.length
          · rw [if_pos hbig] at hl
            exact absurd hl Bool.false_ne_true
          · rw [if_neg hbig] at hl
            have hfits : 256 + headerPlSize (bs.take 256) ≤ bs.length :=
              not_lt.mp hbig
            have hrlen :
                ((bs.drop 256).drop (headerPlSize (bs.take 256))).length ≤ n := by
              rw [List.length_drop, List.length_drop]
              omega
            cases hsg : blsect_is_signature (bs.take 256) with
            | true =>
              rw [hsg] at hl
              simp only [if_true] at hl
              cases hguard : s || decide
                  (headerPlSize (bs.take 256) > MAX_SIGSECTION_SIZE) with
              | true =>
                rw [hguard] at hl
                simp only [if_true] at hl
                exact absurd hl Bool.false_ne_true
              | false =>
                rw [hguard] at hl
                simp only [Bool.false_eq_true, if_false] at hl
                simp only [Bool.or_eq_false_iff, decide_eq_false_iff_not,
                  gt_iff_lt, not_lt] at hguard
                obtain ⟨hs, hmax⟩ := hguard
                cases hpl : blsect_validate_payload (bs.take 256)
                    ((bs.drop 256).take (headerPlSize (bs.take 256))) with
                | false =>
                  rw [hpl] at hl
                  simp only [Bool.not_false, if_true] at hl
                  exact absurd hl Bool.false_ne_true
                | true =>
                  rw [hpl] at hl
                  simp only [Bool.not_true, Bool.false_eq_true, if_false] at hl
                  have htail := (ih _ b m true hrlen).mp hl
                  simp only [blsect_validate_payload, Bool.and_eq_true,
                    beq_iff_eq, List.take_take, Nat.min_self] at hpl
                  subst hs
                  exact loopSpec_build_sig hge hv hfits hsg hmax hpl.2 htail
            | false =>
              rw [hsg] at hl
              simp only [Bool.false_eq_true, if_false] at hl
              cases hbc : (cstrOf (headerName (bs.take 256)) == bootNameBytes)
                  && !b with
              | true =>
                rw [hbc] at hl
                simp only [if_true] at hl
                simp only [Bool.and_eq_true, beq_iff_eq,
                  Bool.not_eq_true'] at hbc
                obtain ⟨hnm, hb⟩ := hbc
                subst hb
                exact loopSpec_build_boot hge hv hfits hsg hnm
                  ((ih _ true m s hrlen).mp hl)
              | false =>
                rw [hbc] at hl
                simp only [Bool.false_eq_true, if_false] at hl
                cases hmc : (cstrOf (headerName (bs.take 256)) == mainNameBytes)
                    && !m with
                | true =>
                  rw [hmc] at hl
                  simp only [if_true] at hl
                  simp only [Bool.and_eq_true, beq_iff_eq,
                    Bool.not_eq_true'] at hmc
                  obtain ⟨hnm, hm⟩ := hmc
                  subst hm
                  exact loopSpec_build_main hge hv hfits hsg hnm
                    ((ih _ b true s hrlen).mp hl)
                | false =>
                  rw [hmc] at hl
                  simp only [Bool.false_eq_true, if_false] at hl
      · intro hspec
        obtain ⟨hval, hfits, hcases⟩ := loopSpec_destruct hge hspec
        have hrlen :
            ((bs.drop 256).drop (headerPlSize (bs.take 256))).length ≤ n := by
          rw [List.length_drop, List.length_drop]
          omega
        have hnbig : ¬(256 + headerPlSize (bs.take 256) > bs.length) := by
          omega
        simp only [read_metadata_loop]
        rw [if_neg hlt, hval]
        simp only [Bool.not_true, Bool.false_eq_true, if_false]
        rw [if_neg hnbig]
        rcases hcases with ⟨hsg, hs, hmax, hcrc, htail⟩ |
          ⟨hsg, hnm, hb, htail⟩ | ⟨hsg, hnm, hm, htail⟩
        · subst hs
          rw [hsg]
          simp only [if_true, Bool.false_or]
          rw [decide_eq_false (not_lt.mpr hmax)]
          simp only [Bool.false_eq_true, if_false]
          have hplv : blsect_validate_payload (bs.take 256)
              ((bs.drop 256).take (headerPlSize (bs.take 256))) = true := by
            obtain ⟨h0, hpmax⟩ := blsect_validate_header_plsize hval
            simp only [blsect_validate_payload, Bool.and_eq_true, bne_iff_ne,
              decide_eq_true_eq, beq_iff_eq, List.take_take, Nat.min_self]
            exact ⟨⟨h0, hpmax⟩, hcrc⟩
          rw [hplv]
          simp only [Bool.not_true, Bool.false_eq_true, if_false]
          exact (ih _ b m true hrlen).mpr htail
        · subst hb
          rw [hsg]
          simp only [Bool.false_eq_true, if_false]
          rw [hnm]
          simp only [beq_self_eq_true, Bool.not_false, Bool.and_self, if_true]
          exact (ih _ true m s hrlen).mpr htail
        · subst hm
          rw [hsg]
          simp only [Bool.false_eq_true, if_false]
          rw [hnm]
          simp only [main_ne_boot, Bool.false_and, Bool.false_eq_true, if_false,
            beq_self_eq_true, Bool.not_false, Bool.and_self, if_true]
          exact (ih _ b true s hrlen).mpr htail

/-- C6: read_metadata returns true iff the upgrade file is exactly a
concatenation of sections, each a 256-byte header passing header validation
immediately followed by pl_size payload bytes with no trailing bytes,
containing exactly one signature section (payload at most 32*80 bytes and
matching its header CRC) and at least one payload section, where every
payload section is named "boot" or "main" and no payload section name
occurs twice. -/
theorem C6_read_metadata_iff (file : List Nat) :
    read_metadata file = true ↔ SpecUpgradeFile file := by
  rw [read_metadata,
    read_metadata_loop_iff file.length file false false false le_rfl]
  constructor
  · rintro ⟨secs, h1, h2, h3, h4, h5, h6, h7, h8⟩
    refine ⟨secs, h1, h2, by simpa using h3, h4, ?_, h6, by simpa using h7,
      by simpa using h8⟩
    rcases h5 with h5 | h5 | h5
    · exact absurd h5 Bool.false_ne_true
    · exact absurd h5 Bool.false_ne_true
    · exact h5
  · rintro ⟨secs, h1, h2, h3, h4, h5, h6, h7, h8⟩
    exact ⟨secs, h1, h2, by simpa using h3, h4, Or.inr (Or.inr h5), h6,
      by simpa using h7, by simpa using h8⟩

end Specter
